import Mathlib

/-!
Verification of the paint-by-numbers core against its source.

The development shallowly embeds the Python modules of the repository:

* `paintbynumbers/algorithms/vector.py`            → namespace `PBN.Vec`
* `paintbynumbers/algorithms/flood_fill.py`
  (stack-based version of the `python-paintbynumbers` package)
                                                   → namespace `PBN.FloodFillStack`
* `src/paintbynumbers/algorithms/flood_fill.py`
  (scanline version of the `src` package)          → namespace `PBN.FloodFillScan`
* `paintbynumbers/processing/facetbuilder.py`      → namespace `PBN.FacetBuilder`
* `paintbynumbers/processing/facetreduction.py`    → namespace `PBN.FacetReducer`
* `paintbynumbers/algorithms/polylabel.py`         → namespace `PBN.Polylabel`

Python floats are modelled by exact rationals (and by real numbers where the
source takes square roots); machine integers by `Nat`/`Int`.  Mutable state is
threaded explicitly.  Python exceptions are modelled by `Option`.
-/

namespace PBN

/-- A pixel coordinate, mirroring `paintbynumbers/structs/point.py` (`Point`);
coordinates that appear in the pipeline are non-negative. -/
structure Point where
  x : Nat
  y : Nat
deriving DecidableEq, Repr

instance : Inhabited Point := ⟨⟨0, 0⟩⟩

/-- Row-major 2-dimensional array, mirroring the typed arrays of
`paintbynumbers/structs/typed_arrays.py` (`Uint8Array2D`, `Uint32Array2D`,
`BooleanArray2D`): a flat buffer indexed by `y * width + x`. -/
structure Grid (α : Type) where
  width : Nat
  height : Nat
  data : List α
deriving DecidableEq, Repr

namespace Grid

/-- Element read at `(x, y)`; the sources only read in-bounds cells, the
out-of-range default mirrors the zero-initialised buffers. -/
def get [Inhabited α] (g : Grid α) (x y : Nat) : α :=
  g.data.getD (y * g.width + x) default

/-- Element write at `(x, y)` (`List.set` ignores out-of-range writes,
matching that the sources only write in-bounds cells). -/
def set (g : Grid α) (x y : Nat) (v : α) : Grid α :=
  { g with data := g.data.set (y * g.width + x) v }

/-- A fresh `width × height` buffer filled with `v`, mirroring the
zero/false-initialised constructors of the typed arrays. -/
def const (w h : Nat) (v : α) : Grid α :=
  { width := w, height := h, data := List.replicate (w * h) v }

/-- Modelled from the spec: the source of
`paintbynumbers/structs/typed_arrays.py` is not under `src/`;
`Uint8Array2D.match_all_around(x, y, v)` is used by the facet builder so that
a pixel is an inner point iff all four 4-neighbours exist (the pixel is not on
the image boundary) and carry the value `v` — the spec defines a border point
as a pixel on the image boundary or with a 4-neighbour of a different color. -/
def matchAllAround (g : Grid Nat) (x y : Nat) (v : Nat) : Bool :=
  0 < x && g.get (x - 1) y == v &&
  (x + 1 < g.width && g.get (x + 1) y == v) &&
  (0 < y && g.get x (y - 1) == v) &&
  (y + 1 < g.height && g.get x (y + 1) == v)

theorem get_set_self [Inhabited α] (g : Grid α) (x y : Nat) (v : α)
    (h : y * g.width + x < g.data.length) :
    (g.set x y v).get x y = v := by
  simp [get, set, List.getD, List.getElem?_set_self h]

theorem get_set_ne [Inhabited α] (g : Grid α) (x y x' y' : Nat) (v : α)
    (h : y' * g.width + x' ≠ y * g.width + x) :
    (g.set x y v).get x' y' = g.get x' y' := by
  simp [get, set, List.getD, List.getElem?_set_ne (Ne.symm h)]

theorem set_width (g : Grid α) (x y : Nat) (v : α) : (g.set x y v).width = g.width := rfl

theorem set_height (g : Grid α) (x y : Nat) (v : α) : (g.set x y v).height = g.height := rfl

theorem set_data_length (g : Grid α) (x y : Nat) (v : α) :
    (g.set x y v).data.length = g.data.length := by
  simp [set]

/-- Keys `y * w + x` of in-bounds cells are injective. -/
theorem key_inj {w x1 y1 x2 y2 : Nat} (hx1 : x1 < w) (hx2 : x2 < w)
    (h : y1 * w + x1 = y2 * w + x2) : x1 = x2 ∧ y1 = y2 := by
  have hy : y1 = y2 := by
    rcases Nat.lt_trichotomy y1 y2 with hlt | heq | hgt
    · exfalso
      have : y1 * w + x1 < y2 * w + x2 := by
        calc y1 * w + x1 < y1 * w + w := by omega
        _ = (y1 + 1) * w := by ring
        _ ≤ y2 * w := Nat.mul_le_mul_right w hlt
        _ ≤ y2 * w + x2 := by omega
      omega
    · exact heq
    · exfalso
      have : y2 * w + x2 < y1 * w + x1 := by
        calc y2 * w + x2 < y2 * w + w := by omega
        _ = (y2 + 1) * w := by ring
        _ ≤ y1 * w := Nat.mul_le_mul_right w hgt
        _ ≤ y1 * w + x1 := by omega
      omega
  subst hy
  omega

/-- In-bounds keys lie below `w * h`. -/
theorem key_lt {w h x y : Nat} (hx : x < w) (hy : y < h) : y * w + x < w * h := by
  calc y * w + x < y * w + w := by omega
  _ = (y + 1) * w := by ring
  _ ≤ h * w := Nat.mul_le_mul_right w hy
  _ = w * h := Nat.mul_comm h w

end Grid

/-! ## `paintbynumbers/algorithms/vector.py` — weighted vectors -/

/-- A weighted vector (`Vector` of `vector.py`): values, weight, and an opaque
tag (the pipeline stores an RGB triple there).  Float arithmetic is modelled
exactly over `ℚ`. -/
structure Vec where
  values : List ℚ
  weight : ℚ
  tag : Option (Nat × Nat × Nat) := none
deriving DecidableEq, Repr

namespace Vec

/-- `Vector.average(vectors)`: the weighted centroid.  `none` models the
Python exceptions: the explicit `ValueError` on an empty list, the
`IndexError` when a later vector has fewer dimensions than the first
(the accumulation loop reads `vec.values[i]` for every `i` below the first
vector's dimension), and the `ZeroDivisionError` when the weights sum to
zero *and* there is at least one dimension — the final loop divides each of
the `len(values)` accumulated entries by `weight_sum`, so it runs zero
times when the first vector is empty and no division ever happens. -/
def average (vectors : List Vec) : Option Vec :=
  match vectors with
  | [] => none
  | v0 :: _ =>
    let dims := v0.values.length
    if vectors.any fun v => v.values.length < dims then none
    else
      let weightSum : ℚ := (vectors.map weight).sum
      let sums : List ℚ := (List.range dims).map fun i =>
        (vectors.map fun v => v.weight * v.values.getD i 0).sum
      if weightSum = 0 ∧ 0 < dims then none
      else some { values := sums.map fun s => s / weightSum, weight := weightSum, tag := none }

end Vec

/-! ## Stack-based flood fill
(`python-paintbynumbers/src/paintbynumbers/algorithms/flood_fill.py`) -/

/-- `boundary.is_in_bounds(x, y, width, height)` (coordinates are `Nat`,
so only the upper bounds remain). -/
def isInBounds (x y w h : Nat) : Bool := x < w && y < h

namespace FloodFillStack

/-- The four neighbour pushes of the stack loop. The Python code appends
up, down, left, right to the end of the stack and pops from the end, so in a
head-is-top list the pushed block reads right, left, down, up. -/
def pushNeighbors (p : Point) (w h : Nat) : List Point :=
  (if p.x + 1 < w then [⟨p.x + 1, p.y⟩] else []) ++
  (if 0 < p.x then [⟨p.x - 1, p.y⟩] else []) ++
  (if p.y + 1 < h then [⟨p.x, p.y + 1⟩] else []) ++
  (if 0 < p.y then [⟨p.x, p.y - 1⟩] else [])

theorem pushNeighbors_length_le (p : Point) (w h : Nat) :
    (pushNeighbors p w h).length ≤ 4 := by
  unfold pushNeighbors
  split <;> split <;> split <;> split <;> simp

/-- Termination measure of the flood-fill loops: unvisited in-bounds keys
weigh five, stack entries weigh one. -/
def fillMeasure (w h : Nat) (stack : List α) (visited : Finset Nat) : Nat :=
  5 * ((Finset.range (w * h)) \ visited).card + stack.length

theorem fillMeasure_skip {w h : Nat} (p : α) (stack : List α) (visited : Finset Nat) :
    fillMeasure w h stack visited < fillMeasure w h (p :: stack) visited := by
  simp [fillMeasure]

theorem fillMeasure_visit {w h : Nat} (p : α) (stack pushes : List α)
    (visited : Finset Nat) (key : Nat) (hkey : key < w * h) (hnew : key ∉ visited)
    (hlen : pushes.length ≤ 4) :
    fillMeasure w h (pushes ++ stack) (insert key visited) <
      fillMeasure w h (p :: stack) visited := by
  have hmem : key ∈ Finset.range (w * h) \ visited := by
    simp [Finset.mem_sdiff, Finset.mem_range, hkey, hnew]
  have hsub : Finset.range (w * h) \ insert key visited =
      (Finset.range (w * h) \ visited).erase key := by
    ext a
    simp [Finset.mem_sdiff, Finset.mem_erase, Finset.mem_insert]
    tauto
  have hcard : ((Finset.range (w * h)) \ insert key visited).card + 1 =
      ((Finset.range (w * h)) \ visited).card := by
    rw [hsub]
    exact Finset.card_erase_add_one hmem
  simp only [fillMeasure, List.length_append, List.length_cons]
  omega

/-- The loop of `FloodFillAlgorithm.fill` (stack version): pop a point, skip
it when already visited, out of bounds, or excluded by the predicate;
otherwise emit it, mark its key visited and push its neighbours. -/
def fillLoop (w h : Nat) (inc : Nat → Nat → Bool) :
    List Point → Finset Nat → List Point
  | [], _ => []
  | p :: rest, visited =>
    if p.y * w + p.x ∈ visited then fillLoop w h inc rest visited
    else if hb : ¬ (p.x < w ∧ p.y < h) then fillLoop w h inc rest visited
    else if ¬ inc p.x p.y then fillLoop w h inc rest visited
    else
      p :: fillLoop w h inc (pushNeighbors p w h ++ rest) (insert (p.y * w + p.x) visited)
termination_by stack visited => fillMeasure w h stack visited
decreasing_by
  · exact fillMeasure_skip _ _ _
  · exact fillMeasure_skip _ _ _
  · exact fillMeasure_skip _ _ _
  · push_neg at hb
    exact fillMeasure_visit _ _ _ _ _ (Grid.key_lt hb.1 hb.2) (by assumption)
      (pushNeighbors_length_le _ _ _)

/-- `FloodFillAlgorithm.fill` (stack version). -/
def fill (start : Point) (w h : Nat) (inc : Nat → Nat → Bool) : List Point :=
  fillLoop w h inc [start] ∅

/-- The loop of `FloodFillAlgorithm.fill_with_callback` (stack version):
the same traversal, threading the closure state `σ` read by the predicate
and mutated by the callback, and counting filled pixels. -/
def fillCBLoop (w h : Nat) (inc : σ → Nat → Nat → Bool) (onFill : σ → Nat → Nat → σ) :
    List Point → Finset Nat → σ → Nat → σ × Nat
  | [], _, s, count => (s, count)
  | p :: rest, visited, s, count =>
    if p.y * w + p.x ∈ visited then fillCBLoop w h inc onFill rest visited s count
    else if hb : ¬ (p.x < w ∧ p.y < h) then fillCBLoop w h inc onFill rest visited s count
    else if ¬ inc s p.x p.y then fillCBLoop w h inc onFill rest visited s count
    else
      fillCBLoop w h inc onFill (pushNeighbors p w h ++ rest) (insert (p.y * w + p.x) visited)
        (onFill s p.x p.y) (count + 1)
termination_by stack visited => fillMeasure w h stack visited
decreasing_by
  · exact fillMeasure_skip _ _ _
  · exact fillMeasure_skip _ _ _
  · exact fillMeasure_skip _ _ _
  · push_neg at hb
    exact fillMeasure_visit _ _ _ _ _ (Grid.key_lt hb.1 hb.2) (by assumption)
      (pushNeighbors_length_le _ _ _)

/-- `FloodFillAlgorithm.fill_with_callback` (stack version). -/
def fillWithCallback (start : Point) (w h : Nat) (inc : σ → Nat → Nat → Bool)
    (onFill : σ → Nat → Nat → σ) (s0 : σ) : σ × Nat :=
  fillCBLoop w h inc onFill [start] ∅ s0 0

end FloodFillStack

/-! ## Scanline flood fill (`src/src/paintbynumbers/algorithms/flood_fill.py`) -/

namespace FloodFillScan

/-- Left extension of `FloodFillAlgorithm.fill` (scanline version): from `x`,
walk left while the pixel to the left is unvisited and included. -/
def extendLeft (w y : Nat) (inc : Nat → Nat → Bool) (visited : Finset Nat) : Nat → Nat
  | 0 => 0
  | x + 1 => if y * w + x ∈ visited ∨ ¬ inc x y then x + 1 else extendLeft w y inc visited x

/-- Right extension: from `x`, walk right while below `width - 1` and the
pixel to the right is unvisited and included. -/
def extendRight (w y : Nat) (inc : Nat → Nat → Bool) (visited : Finset Nat) (x : Nat) : Nat :=
  if h : x + 1 < w then
    if y * w + (x + 1) ∈ visited ∨ ¬ inc (x + 1) y then x
    else extendRight w y inc visited (x + 1)
  else x
termination_by w - x

theorem extendLeft_le (w y : Nat) (inc : Nat → Nat → Bool) (visited : Finset Nat) :
    ∀ x, extendLeft w y inc visited x ≤ x := by
  intro x
  induction x with
  | zero => simp [extendLeft]
  | succ n ih =>
    rw [extendLeft]
    split
    · exact Nat.le_refl _
    · exact Nat.le_succ_of_le ih

/-- Every pixel strictly between the extension result and the start is
unvisited and included. -/
theorem extendLeft_fresh (w y : Nat) (inc : Nat → Nat → Bool) (visited : Finset Nat) :
    ∀ x xi, extendLeft w y inc visited x ≤ xi → xi < x →
      y * w + xi ∉ visited ∧ inc xi y = true := by
  intro x
  induction x with
  | zero => omega
  | succ n ih =>
    intro xi hle hlt
    rw [extendLeft] at hle
    by_cases hc : y * w + n ∈ visited ∨ ¬ inc n y
    · rw [if_pos hc] at hle; omega
    · rw [if_neg hc] at hle
      push_neg at hc
      rcases Nat.lt_succ_iff_lt_or_eq.mp hlt with hlt' | heq
      · exact ih xi hle hlt'
      · exact heq ▸ ⟨hc.1, by simpa using hc.2⟩

theorem extendRight_ge (w y : Nat) (inc : Nat → Nat → Bool) (visited : Finset Nat) :
    ∀ x, x ≤ extendRight w y inc visited x := by
  intro x
  induction x using extendRight.induct w y inc visited with
  | case1 x h hc => rw [extendRight, dif_pos h, if_pos hc]
  | case2 x h hc ih =>
    rw [extendRight, dif_pos h, if_neg hc]
    omega
  | case3 x h => rw [extendRight, dif_neg h]

theorem extendRight_lt (w y : Nat) (inc : Nat → Nat → Bool) (visited : Finset Nat) :
    ∀ x, x < w → extendRight w y inc visited x < w := by
  intro x
  induction x using extendRight.induct w y inc visited with
  | case1 x h hc => intro hx; rw [extendRight, dif_pos h, if_pos hc]; exact hx
  | case2 x h hc ih => intro hx; rw [extendRight, dif_pos h, if_neg hc]; exact ih h
  | case3 x h => intro hx; rw [extendRight, dif_neg h]; exact hx

/-- Every pixel strictly between the start and the right extension result is
unvisited and included. -/
theorem extendRight_fresh (w y : Nat) (inc : Nat → Nat → Bool) (visited : Finset Nat) :
    ∀ x xi, x < xi → xi ≤ extendRight w y inc visited x →
      y * w + xi ∉ visited ∧ inc xi y = true := by
  intro x
  induction x using extendRight.induct w y inc visited with
  | case1 x h hc => intro xi h1 h2; rw [extendRight, dif_pos h, if_pos hc] at h2; omega
  | case2 x h hc ih =>
    intro xi h1 h2
    rw [extendRight, dif_pos h, if_neg hc] at h2
    push_neg at hc
    rcases Nat.lt_iff_add_one_le.mp h1 |>.lt_or_eq with h1' | h1'
    · exact ih xi h1' h2
    · refine h1' ▸ ⟨hc.1, by simpa using hc.2⟩
  | case3 x h => intro xi h1 h2; rw [extendRight, dif_neg h] at h2; omega

/-- `FloodFillAlgorithm._scan_line` (scanline version): walk the given `x`
positions on row `y`, pushing the first pixel of every maximal run of valid
(in-bounds, unvisited, included) pixels as a new seed carrying direction
`dy`.  The seeds are returned in left-to-right order (the Python code appends
them to the stack in this order). -/
def scanLine (y : Nat) (dy : Int) (w h : Nat) (inc : Nat → Nat → Bool) (visited : Finset Nat) :
    List Nat → Bool → List (Nat × Nat × Int)
  | [], _ => []
  | x :: xs, inSpan =>
    if x < w ∧ y < h ∧ y * w + x ∉ visited ∧ inc x y then
      if inSpan then scanLine y dy w h inc visited xs true
      else (x, y, dy) :: scanLine y dy w h inc visited xs true
    else scanLine y dy w h inc visited xs false

theorem scanLine_length_le (y : Nat) (dy : Int) (w h : Nat) (inc : Nat → Nat → Bool)
    (visited : Finset Nat) : ∀ xs b, (scanLine y dy w h inc visited xs b).length ≤ xs.length := by
  intro xs
  induction xs with
  | nil => intro b; simp [scanLine]
  | cons x xs ih =>
    intro b
    rw [scanLine]
    split
    · split
      · exact Nat.le_succ_of_le (ih true)
      · simpa using ih true
    · exact Nat.le_succ_of_le (ih false)

/-- Measure decrease for the scanline visit step: the span `[x1, x2]` around
the popped `(x, y)` consists of fresh in-range keys, and each of the two line
scans pushes at most one seed per span pixel. -/
theorem scanMeasure_visit {w h : Nat} (p : α) (rest : List α) (visited : Finset Nat)
    (x y x1 x2 : Nat) (hx1 : x1 ≤ x) (hx2 : x ≤ x2) (hx2w : x2 < w) (hy : y < h)
    (hfresh : ∀ xi, x1 ≤ xi → xi ≤ x2 → y * w + xi ∉ visited)
    (ups downs : List α) (hu : ups.length ≤ x2 + 1 - x1) (hd : downs.length ≤ x2 + 1 - x1) :
    FloodFillStack.fillMeasure w h ((downs.reverse ++ ups.reverse) ++ rest)
        (visited ∪ ((List.range' x1 (x2 + 1 - x1)).map (fun xi => y * w + xi)).toFinset) <
      FloodFillStack.fillMeasure w h (p :: rest) visited := by
  set k := x2 + 1 - x1 with hk
  set S : Finset Nat := ((List.range' x1 k).map (fun xi => y * w + xi)).toFinset with hS
  have hSsub : S ⊆ Finset.range (w * h) \ visited := by
    intro a ha
    rw [hS, List.mem_toFinset, List.mem_map] at ha
    obtain ⟨xi, hxi, rfl⟩ := ha
    rw [List.mem_range'_1] at hxi
    have hxi2 : xi ≤ x2 := by omega
    have hxiw : xi < w := lt_of_le_of_lt hxi2 hx2w
    rw [Finset.mem_sdiff, Finset.mem_range]
    exact ⟨Grid.key_lt hxiw hy, hfresh xi hxi.1 hxi2⟩
  have hcardS : S.card = k := by
    rw [hS, List.toFinset_card_of_nodup]
    · simp
    · refine List.Nodup.map ?_ (List.nodup_range' x1 k)
      intro a b hab
      simp only at hab
      omega
  have hsd : Finset.range (w * h) \ (visited ∪ S) = (Finset.range (w * h) \ visited) \ S := by
    ext a
    simp [Finset.mem_sdiff, Finset.mem_union]
    tauto
  have hcard : (Finset.range (w * h) \ (visited ∪ S)).card =
      (Finset.range (w * h) \ visited).card - k := by
    rw [hsd, Finset.card_sdiff hSsub, hcardS]
  have hkpos : 1 ≤ k := by omega
  have hle : k ≤ (Finset.range (w * h) \ visited).card := by
    calc k = S.card := hcardS.symm
    _ ≤ _ := Finset.card_le_card hSsub
  simp only [FloodFillStack.fillMeasure, List.length_append, List.length_cons,
    List.length_reverse, hcard]
  omega

/-- The loop of `FloodFillAlgorithm.fill` (scanline version): pop a seed
`(x, y, dy)`; unless it is out of bounds, visited or excluded, extend it to
the maximal horizontal span of unvisited included pixels, emit and mark the
whole span, and scan the row above (when `dy ≤ 0`) and below (when `dy ≥ 0`)
for new seeds. -/
def fillLoop (w h : Nat) (inc : Nat → Nat → Bool) :
    List (Nat × Nat × Int) → Finset Nat → List Point
  | [], _ => []
  | (x, y, dy) :: rest, visited =>
    if hb : ¬ (x < w ∧ y < h) then fillLoop w h inc rest visited
    else if y * w + x ∈ visited then fillLoop w h inc rest visited
    else if ¬ inc x y then fillLoop w h inc rest visited
    else
      let x1 := extendLeft w y inc visited x
      let x2 := extendRight w y inc visited x
      let span := List.range' x1 (x2 + 1 - x1)
      let visited' := visited ∪ (span.map (fun xi => y * w + xi)).toFinset
      let ups := if dy ≤ 0 ∧ 0 < y then scanLine (y - 1) (-1) w h inc visited' span false else []
      let downs := if 0 ≤ dy ∧ y + 1 < h then scanLine (y + 1) 1 w h inc visited' span false
        else []
      span.map (fun xi => Point.mk xi y) ++
        fillLoop w h inc ((downs.reverse ++ ups.reverse) ++ rest) visited'
termination_by stack visited => FloodFillStack.fillMeasure w h stack visited
decreasing_by
  · exact FloodFillStack.fillMeasure_skip _ _ _
  · exact FloodFillStack.fillMeasure_skip _ _ _
  · exact FloodFillStack.fillMeasure_skip _ _ _
  · push_neg at hb
    refine scanMeasure_visit _ _ _ x y _ _ (extendLeft_le w y inc visited x)
      (extendRight_ge w y inc visited x) (extendRight_lt w y inc visited x hb.1) hb.2
      ?_ _ _ ?_ ?_
    · intro xi hge hle
      rcases Nat.lt_trichotomy xi x with hlt | rfl | hgt
      · exact (extendLeft_fresh w y inc visited x xi hge hlt).1
      · assumption
      · exact (extendRight_fresh w y inc visited x xi hgt hle).1
    · split
      · calc _ ≤ _ := scanLine_length_le _ _ _ _ _ _ _ _
        _ = _ := List.length_range' _ _ _
      · simp
    · split
      · calc _ ≤ _ := scanLine_length_le _ _ _ _ _ _ _ _
        _ = _ := List.length_range' _ _ _
      · simp

/-- `FloodFillAlgorithm.fill` (scanline version), including the two early
returns on an out-of-bounds or excluded seed. -/
def fill (start : Point) (w h : Nat) (inc : Nat → Nat → Bool) : List Point :=
  if ¬ (start.x < w ∧ start.y < h) then []
  else if ¬ inc start.x start.y then []
  else fillLoop w h inc [(start.x, start.y, 0)] ∅

/-- The loop of `FloodFillAlgorithm.fill_with_callback` (scanline version):
the same traversal with the closure state `σ` threaded through predicate and
callback; the span is extended with the state at pop time, the per-pixel
callback is folded over the span, and the line scans read the post-span
state, exactly as the mutations interleave in the Python code. -/
def fillCBLoop (w h : Nat) (inc : σ → Nat → Nat → Bool) (onFill : σ → Nat → Nat → σ) :
    List (Nat × Nat × Int) → Finset Nat → σ → Nat → σ × Nat
  | [], _, s, count => (s, count)
  | (x, y, dy) :: rest, visited, s, count =>
    if hb : ¬ (x < w ∧ y < h) then fillCBLoop w h inc onFill rest visited s count
    else if y * w + x ∈ visited then fillCBLoop w h inc onFill rest visited s count
    else if ¬ inc s x y then fillCBLoop w h inc onFill rest visited s count
    else
      let x1 := extendLeft w y (inc s) visited x
      let x2 := extendRight w y (inc s) visited x
      let span := List.range' x1 (x2 + 1 - x1)
      let visited' := visited ∪ (span.map (fun xi => y * w + xi)).toFinset
      let s' := span.foldl (fun a xi => onFill a xi y) s
      let ups := if dy ≤ 0 ∧ 0 < y then scanLine (y - 1) (-1) w h (inc s') visited' span false
        else []
      let downs := if 0 ≤ dy ∧ y + 1 < h then scanLine (y + 1) 1 w h (inc s') visited' span false
        else []
      fillCBLoop w h inc onFill ((downs.reverse ++ ups.reverse) ++ rest) visited' s'
        (count + span.length)
termination_by stack visited => FloodFillStack.fillMeasure w h stack visited
decreasing_by
  · exact FloodFillStack.fillMeasure_skip _ _ _
  · exact FloodFillStack.fillMeasure_skip _ _ _
  · exact FloodFillStack.fillMeasure_skip _ _ _
  · push_neg at hb
    refine scanMeasure_visit _ _ _ x y _ _ (extendLeft_le w y (inc s) visited x)
      (extendRight_ge w y (inc s) visited x) (extendRight_lt w y (inc s) visited x hb.1) hb.2
      ?_ _ _ ?_ ?_
    · intro xi hge hle
      rcases Nat.lt_trichotomy xi x with hlt | rfl | hgt
      · exact (extendLeft_fresh w y (inc s) visited x xi hge hlt).1
      · assumption
      · exact (extendRight_fresh w y (inc s) visited x xi hgt hle).1
    · split
      · calc _ ≤ _ := scanLine_length_le _ _ _ _ _ _ _ _
        _ = _ := List.length_range' _ _ _
      · simp
    · split
      · calc _ ≤ _ := scanLine_length_le _ _ _ _ _ _ _ _
        _ = _ := List.length_range' _ _ _
      · simp

/-- `FloodFillAlgorithm.fill_with_callback` (scanline version); returns the
final closure state and the pixel count (the Python function returns the
count, state being mutated through the closures). -/
def fillWithCallback (start : Point) (w h : Nat) (inc : σ → Nat → Nat → Bool)
    (onFill : σ → Nat → Nat → σ) (s0 : σ) : σ × Nat :=
  if ¬ (start.x < w ∧ start.y < h) then (s0, 0)
  else if ¬ inc s0 start.x start.y then (s0, 0)
  else fillCBLoop w h inc onFill [(start.x, start.y, 0)] ∅ s0 0

end FloodFillScan

/-! ## Correspondence between the two public forms of each fill -/

namespace FloodFillStack

/-- With a pure predicate, the callback loop folds the callback over exactly
the pixel list the collecting loop produces, and counts its length. -/
theorem fillCBLoop_eq_fillLoop (w h : Nat) (incp : Nat → Nat → Bool)
    (onFill : σ → Nat → Nat → σ) :
    ∀ stack visited s count,
      fillCBLoop w h (fun _ x y => incp x y) onFill stack visited s count =
        ((fillLoop w h incp stack visited).foldl (fun a p => onFill a p.x p.y) s,
          count + (fillLoop w h incp stack visited).length) := by
  intro stack visited s count
  induction stack, visited, s, count
    using fillCBLoop.induct w h (fun _ x y => incp x y) onFill with
  | case1 => simp [fillCBLoop, fillLoop]
  | case2 p rest visited s count hmem ih =>
    rw [fillCBLoop, fillLoop]
    simp only [if_pos hmem]
    exact ih
  | case3 p rest visited s count hmem hb ih =>
    rw [fillCBLoop, fillLoop]
    rw [if_neg hmem, dif_pos hb, if_neg hmem, dif_pos hb]
    exact ih
  | case4 p rest visited s count hmem hb hinc ih =>
    rw [fillCBLoop, fillLoop]
    rw [if_neg hmem, dif_neg hb, if_pos hinc, if_neg hmem, dif_neg hb, if_pos hinc]
    exact ih
  | case5 p rest visited s count hmem hb hinc ih =>
    rw [fillCBLoop, fillLoop]
    rw [if_neg hmem, dif_neg hb, if_neg hinc, if_neg hmem, dif_neg hb, if_neg hinc]
    rw [ih]
    simp only [List.foldl_cons, List.length_cons, Prod.mk.injEq, true_and]
    omega

/-- Every pixel the stack fill loop emits is in bounds with an unvisited key,
and the emitted list has no duplicates. -/
theorem fillLoop_nodup (w h : Nat) (inc : Nat → Nat → Bool) :
    ∀ stack visited,
      (∀ p ∈ fillLoop w h inc stack visited, p.x < w ∧ p.y < h ∧ p.y * w + p.x ∉ visited) ∧
        (fillLoop w h inc stack visited).Nodup := by
  intro stack visited
  induction stack, visited using fillLoop.induct w h inc with
  | case1 => simp [fillLoop]
  | case2 p rest visited hmem ih =>
    rw [fillLoop]; simp only [if_pos hmem]; exact ih
  | case3 p rest visited hmem hb ih =>
    rw [fillLoop]; rw [if_neg hmem, dif_pos hb]; exact ih
  | case4 p rest visited hmem hb hinc ih =>
    rw [fillLoop]; rw [if_neg hmem, dif_neg hb, if_pos hinc]; exact ih
  | case5 p rest visited hmem hb hinc ih =>
    rw [fillLoop]
    rw [if_neg hmem, dif_neg hb, if_neg hinc]
    push_neg at hb
    obtain ⟨ihmem, ihnodup⟩ := ih
    refine ⟨?_, ?_⟩
    · intro q hq
      rcases List.mem_cons.mp hq with rfl | hq'
      · exact ⟨hb.1, hb.2, hmem⟩
      · have := ihmem q hq'
        refine ⟨this.1, this.2.1, fun hv => this.2.2 (Finset.mem_insert_of_mem hv)⟩
    · refine List.nodup_cons.mpr ⟨?_, ihnodup⟩
      intro hp
      exact (ihmem p hp).2.2 (Finset.mem_insert_self _ _)

end FloodFillStack

namespace FloodFillScan

/-- With a pure predicate, the scanline callback loop folds the callback over
exactly the pixel list the collecting loop produces, and counts its length. -/
theorem scan_fillCBLoop_eq_fillLoop (w h : Nat) (incp : Nat → Nat → Bool)
    (onFill : σ → Nat → Nat → σ) :
    ∀ stack visited s count,
      fillCBLoop w h (fun _ x y => incp x y) onFill stack visited s count =
        ((fillLoop w h incp stack visited).foldl (fun a p => onFill a p.x p.y) s,
          count + (fillLoop w h incp stack visited).length) := by
  intro stack visited s count
  induction stack, visited, s, count
    using fillCBLoop.induct w h (fun _ x y => incp x y) onFill with
  | case1 => simp [fillCBLoop, fillLoop]
  | case2 x y dy rest visited s count hb ih =>
    rw [fillCBLoop, fillLoop]
    rw [dif_pos hb, dif_pos hb]
    exact ih
  | case3 x y dy rest visited s count hb hmem ih =>
    rw [fillCBLoop, fillLoop]
    rw [dif_neg hb, if_pos hmem, dif_neg hb, if_pos hmem]
    exact ih
  | case4 x y dy rest visited s count hb hmem hinc ih =>
    rw [fillCBLoop, fillLoop]
    rw [dif_neg hb, if_neg hmem, if_pos hinc, dif_neg hb, if_neg hmem, if_pos hinc]
    exact ih
  | case5 x y dy rest visited s count hb hmem hinc x1 x2 span visited' s' ups downs ih =>
    rw [fillCBLoop, fillLoop]
    rw [dif_neg hb, if_neg hmem, if_neg hinc, dif_neg hb, if_neg hmem, if_neg hinc]
    unfold_let x1 x2 span visited' s' ups downs at ih
    simp only [List.foldl_append, List.foldl_map, List.length_append, List.length_map]
    refine ih.trans ?_
    simp only [Prod.mk.injEq]
    refine ⟨rfl, ?_⟩
    rw [Nat.add_assoc]
    rfl

/-- Every pixel the scanline fill loop emits is in bounds with an unvisited
key, and the emitted list has no duplicates. -/
theorem scan_fillLoop_nodup (w h : Nat) (inc : Nat → Nat → Bool) :
    ∀ stack visited,
      (∀ p ∈ fillLoop w h inc stack visited, p.x < w ∧ p.y < h ∧ p.y * w + p.x ∉ visited) ∧
        (fillLoop w h inc stack visited).Nodup := by
  intro stack visited
  induction stack, visited using fillLoop.induct w h inc with
  | case1 => simp [fillLoop]
  | case2 x y dy rest visited hb ih =>
    rw [fillLoop]; rw [dif_pos hb]; exact ih
  | case3 x y dy rest visited hb hmem ih =>
    rw [fillLoop]; rw [dif_neg hb, if_pos hmem]; exact ih
  | case4 x y dy rest visited hb hmem hinc ih =>
    rw [fillLoop]; rw [dif_neg hb, if_neg hmem, if_pos hinc]; exact ih
  | case5 x y dy rest visited hb hmem hinc x1 x2 span visited' ups downs ih =>
    rw [fillLoop]
    rw [dif_neg hb, if_neg hmem, if_neg hinc]
    unfold_let x1 x2 span visited' ups downs at ih
    push_neg at hb
    obtain ⟨ihmem, ihnodup⟩ := ih
    have hx1le := extendLeft_le w y inc visited x
    have hx2ge := extendRight_ge w y inc visited x
    have hx2lt := extendRight_lt w y inc visited x hb.1
    have hspan : ∀ xi, xi ∈ List.range' (extendLeft w y inc visited x)
        (extendRight w y inc visited x + 1 - extendLeft w y inc visited x) →
        xi < w ∧ y * w + xi ∉ visited := by
      intro xi hxi
      rw [List.mem_range'_1] at hxi
      have hxi2 : xi ≤ extendRight w y inc visited x := by omega
      refine ⟨lt_of_le_of_lt hxi2 hx2lt, ?_⟩
      rcases Nat.lt_trichotomy xi x with hlt | rfl | hgt
      · exact (extendLeft_fresh w y inc visited x xi hxi.1 hlt).1
      · exact hmem
      · exact (extendRight_fresh w y inc visited x xi hgt hxi2).1
    refine ⟨?_, ?_⟩
    · intro q hq
      simp only [List.mem_append] at hq
      rcases hq with hq' | hq'
      · obtain ⟨xi, hxi, rfl⟩ := List.mem_map.mp hq'
        exact ⟨(hspan xi hxi).1, hb.2, (hspan xi hxi).2⟩
      · have := ihmem q hq'
        refine ⟨this.1, this.2.1, fun hv => this.2.2 (Finset.mem_union_left _ hv)⟩
    · rw [List.nodup_append]
      refine ⟨?_, ihnodup, ?_⟩
      · refine List.Nodup.map ?_ (List.nodup_range' _ _)
        intro a b hab
        simpa using congrArg Point.x hab
      · intro q hq1 hq2
        obtain ⟨xi, hxi, rfl⟩ := List.mem_map.mp hq1
        have := ihmem _ hq2
        refine this.2.2 (Finset.mem_union_right _ ?_)
        rw [List.mem_toFinset, List.mem_map]
        exact ⟨xi, hxi, rfl⟩

end FloodFillScan

/-! ## Facet data model
(`paintbynumbers/processing/facetmanagement.py`, `structs/boundingbox.py`) -/

/-- Modelled from the spec: the source of `structs/boundingbox.py` is not
under `src/`.  The spec defines `bbox` as inclusive min/max x,y; a fresh box
starts with float-infinity-like sentinels (as in the typed arrays' builder
usage, where the first inserted point must initialise all four bounds), here
`±2^53`, which exceeds every coordinate the pipeline produces. -/
structure BoundingBox where
  minX : Int := 2 ^ 53
  minY : Int := 2 ^ 53
  maxX : Int := -(2 ^ 53)
  maxY : Int := -(2 ^ 53)
deriving DecidableEq, Repr

/-- Modelled from the spec and the unit tests: `Facet` of
`processing/facetmanagement.py` (its source is not under `src/`): id, color
index, point count, border points, bounding box, cached neighbour ids
(`None` when invalidated) and the dirty flag. -/
structure Facet where
  id : Nat
  color : Nat
  pointCount : Nat
  borderPoints : List Point
  bbox : BoundingBox
  neighbourFacets : Option (List Nat)
  neighbourFacetsIsDirty : Bool
deriving DecidableEq, Repr

instance : Inhabited Facet :=
  ⟨{ id := 0, color := 0, pointCount := 0, borderPoints := [], bbox := {},
     neighbourFacets := none, neighbourFacetsIsDirty := false }⟩

/-- Modelled from the spec and the unit tests: `FacetResult` of
`processing/facetmanagement.py`: image size, the facet-id grid `facetMap`
(`FID`), and the facet list where a `none` slot is a deleted facet. -/
structure FacetResult where
  width : Nat
  height : Nat
  facetMap : Grid Nat
  facets : List (Option Facet)
deriving DecidableEq, Repr

/-! ## `paintbynumbers/processing/facetbuilder.py` — `FacetBuilder` -/

namespace FacetBuilder

/-- The four bbox-update comparisons of `build_facet`'s `on_fill` callback,
in source order (maxX, maxY, minX, minY). -/
def updateBbox (b : BoundingBox) (x y : Nat) : BoundingBox :=
  let b1 := if (x : Int) > b.maxX then { b with maxX := x } else b
  let b2 := if (y : Int) > b1.maxY then { b1 with maxY := y } else b1
  let b3 := if (x : Int) < b2.minX then { b2 with minX := x } else b2
  if (y : Int) < b3.minY then { b3 with minY := y } else b3

/-- The closure state of `build_facet`: the shared visited buffer, the facet
map being written, and the facet record being accumulated. -/
structure BuildState where
  visited : Grid Bool
  facetMap : Grid Nat
  facet : Facet
deriving DecidableEq, Repr

/-- `should_include` of `build_facet`: unvisited and matching color index. -/
def buildInclude (img : Grid Nat) (facetColorIndex : Nat) (s : BuildState)
    (px py : Nat) : Bool :=
  !(s.visited.get px py) && (img.get px py == facetColorIndex)

/-- `on_fill` of `build_facet`: mark visited, write the facet map, bump the
point count, append a border point when not an inner point, and grow the
bounding box. -/
def buildOnFill (img : Grid Nat) (facetIndex facetColorIndex : Nat) (s : BuildState)
    (px py : Nat) : BuildState :=
  let f := s.facet
  let isInner := img.matchAllAround px py facetColorIndex
  { visited := s.visited.set px py true
    facetMap := s.facetMap.set px py facetIndex
    facet := { f with
      pointCount := f.pointCount + 1
      borderPoints := if isInner then f.borderPoints else f.borderPoints ++ [⟨px, py⟩]
      bbox := updateBbox f.bbox px py } }

/-- `FacetBuilder.build_facet`: flood fill from `(x, y)` with the unvisited ∧
same-color predicate, accumulating the facet record; returns the facet, the
updated visited buffer, and the facet result with the updated facet map. -/
def build_facet (facetIndex facetColorIndex x y : Nat) (visited : Grid Bool)
    (img : Grid Nat) (fr : FacetResult) : Facet × Grid Bool × FacetResult :=
  let f0 : Facet :=
    { id := facetIndex, color := facetColorIndex, pointCount := 0, borderPoints := [],
      bbox := {}, neighbourFacets := none, neighbourFacetsIsDirty := true }
  let res := FloodFillStack.fillWithCallback ⟨x, y⟩ fr.width fr.height
    (buildInclude img facetColorIndex) (buildOnFill img facetIndex facetColorIndex)
    ⟨visited, fr.facetMap, f0⟩
  (res.1.facet, res.1.visited, { fr with facetMap := res.1.facetMap })

/-- One iteration of the `build_all_facets` double loop at column `i` of
row `j`: skip a visited pixel, otherwise build a facet seeded there with the
next index and append it. -/
def buildStep (img : Grid Nat) (st : Grid Bool × FacetResult × List Facet)
    (j i : Nat) : Grid Bool × FacetResult × List Facet :=
  if st.1.get i j then st
  else
    let colorIndex := img.get i j
    let facetIndex := st.2.2.length
    let r := build_facet facetIndex colorIndex i j st.1 img st.2.1
    (r.2.1, r.2.2, st.2.2 ++ [r.1])

/-- `FacetBuilder.build_all_facets`: walk the grid in row-major order and
build a facet from every unvisited pixel; returns the updated result
container and the facet list. -/
def build_all_facets (img : Grid Nat) (width height : Nat) (fr : FacetResult) :
    FacetResult × List Facet :=
  let final := (List.range height).foldl
    (fun st j => (List.range width).foldl (fun st i => buildStep img st j i) st)
    (Grid.const width height false, fr, ([] : List Facet))
  (final.2.1, final.2.2)

/-- `FacetBuilder.build_facet_neighbour`: collect the facet-map values of the
in-bounds 4-neighbours of the facet's border points (all left neighbours,
then right, up, down, as the vectorised source builds them), deduplicate,
drop the facet's own id, and clear the dirty flag.  The Python `set` is
modelled as a first-occurrence-ordered duplicate-free list. -/
def build_facet_neighbour (facet : Facet) (fr : FacetResult) : Facet :=
  if facet.borderPoints.isEmpty then
    { facet with neighbourFacets := some [], neighbourFacetsIsDirty := false }
  else
    let leftCoords := facet.borderPoints.filterMap fun p =>
      if 0 < p.x then some (p.x - 1, p.y) else none
    let rightCoords := facet.borderPoints.filterMap fun p =>
      if p.x + 1 < fr.width then some (p.x + 1, p.y) else none
    let upCoords := facet.borderPoints.filterMap fun p =>
      if 0 < p.y then some (p.x, p.y - 1) else none
    let downCoords := facet.borderPoints.filterMap fun p =>
      if p.y + 1 < fr.height then some (p.x, p.y + 1) else none
    let neighborCoords := leftCoords ++ rightCoords ++ upCoords ++ downCoords
    let uniqueFacets := neighborCoords.foldl (fun acc c =>
      let nid := fr.facetMap.get c.1 c.2
      if nid = facet.id then acc
      else if nid ∈ acc then acc
      else acc ++ [nid]) []
    { facet with neighbourFacets := some uniqueFacets, neighbourFacetsIsDirty := false }

end FacetBuilder

/-! ## `paintbynumbers/processing/facetreduction.py` — `FacetReducer` -/

namespace FacetReducer

/-- Euclidean RGB distance (`numpy` `sqrt` of the squared difference sum) as
used by `_build_color_distance_matrix`. -/
noncomputable def colorDistance (c1 c2 : Nat × Nat × Nat) : ℝ :=
  Real.sqrt (((c1.1 : ℝ) - (c2.1 : ℝ)) ^ 2 + ((c1.2.1 : ℝ) - (c2.2.1 : ℝ)) ^ 2 +
    ((c1.2.2 : ℝ) - (c2.2.2 : ℝ)) ^ 2)

/-- `FacetReducer._build_color_distance_matrix`: the pairwise Euclidean
distance matrix of the palette, as a function of two color indices. -/
noncomputable def build_color_distance_matrix (colors : List (Nat × Nat × Nat)) :
    Nat → Nat → ℝ :=
  fun i j => colorDistance (colors.getD i (0, 0, 0)) (colors.getD j (0, 0, 0))

/-- Manhattan distance from `(x, y)` to a border point. -/
def manhattan (p : Point) (x y : Nat) : Nat :=
  ((p.x : Int) - (x : Int)).natAbs + ((p.y : Int) - (y : Int)).natAbs

/-- The neighbour scan of `_get_closest_neighbour_for_pixel`.  The matrix row
is abstract in the entry type (the source receives the matrix as an
argument); `min_distance` starts at the source's `10 ** 9` sentinel and
`min_color_distance` at `float('inf')`, modelled by `⊤` in `WithTop α`.
Skips absent neighbours and neighbours without border points, prunes by the
bbox Manhattan lower bound, takes a strictly closer neighbour (resetting the
color tie-break to `∞` and returning immediately at distance 1), and breaks
distance ties by a strictly smaller color distance.  The source's local
variables `distance_x`, `distance_y` and `min_distance` (the per-neighbour
candidate) are inlined at each use. -/
def closestLoop [LinearOrder α] (facets : List (Option Facet)) (x y : Nat)
    (colorRow : Nat → α) :
    List Nat → Option Nat → Nat → WithTop α → Option Nat
  | [], closest, _, _ => closest
  | nIdx :: rest, closest, minDistance, minColorDistance =>
    match facets.getD nIdx none with
    | none => closestLoop facets x y colorRow rest closest minDistance minColorDistance
    | some neigh =>
      if neigh.borderPoints.isEmpty then
        closestLoop facets x y colorRow rest closest minDistance minColorDistance
      else
        if (if (x : Int) < neigh.bbox.minX then neigh.bbox.minX - (x : Int)
            else if (x : Int) > neigh.bbox.maxX then (x : Int) - neigh.bbox.maxX else 0) +
           (if (y : Int) < neigh.bbox.minY then neigh.bbox.minY - (y : Int)
            else if (y : Int) > neigh.bbox.maxY then (y : Int) - neigh.bbox.maxY else 0) >
           (minDistance : Int) then
          closestLoop facets x y colorRow rest closest minDistance minColorDistance
        else
          if ((neigh.borderPoints.map fun p => manhattan p x y).min?).getD 0 < minDistance then
            if ((neigh.borderPoints.map fun p => manhattan p x y).min?).getD 0 = 1 then
              some nIdx
            else closestLoop facets x y colorRow rest (some nIdx)
              (((neigh.borderPoints.map fun p => manhattan p x y).min?).getD 0) ⊤
          else if ((neigh.borderPoints.map fun p => manhattan p x y).min?).getD 0
              = minDistance then
            if (colorRow neigh.color : WithTop α) < minColorDistance then
              closestLoop facets x y colorRow rest (some nIdx) minDistance
                (colorRow neigh.color : WithTop α)
            else closestLoop facets x y colorRow rest closest minDistance minColorDistance
          else closestLoop facets x y colorRow rest closest minDistance minColorDistance

/-- `FacetReducer._get_closest_neighbour_for_pixel`; `none` models the `-1`
sentinel.  The dirty neighbour rebuild at the top mutates only the facet
object, which is modelled locally (every caller has already refreshed the
facet, so the rebuild is the identity there). -/
def get_closest_neighbour_for_pixel [LinearOrder α] (facetToRemove : Facet)
    (fr : FacetResult) (x y : Nat) (colorDistances : Nat → Nat → α) : Option Nat :=
  let ftr := if facetToRemove.neighbourFacetsIsDirty
    then FacetBuilder.build_facet_neighbour facetToRemove fr else facetToRemove
  match ftr.neighbourFacets with
  | none => none
  | some ns =>
    if ns.isEmpty then none
    else closestLoop fr.facets x y (colorDistances facetToRemove.color) ns none (10 ^ 9) ⊤

/-- The minimal Manhattan distance from `(x, y)` to a facet's border points —
the per-neighbour `min_distance` candidate of
`_get_closest_neighbour_for_pixel`. -/
def borderDistance (g : Facet) (x y : Nat) : Nat :=
  ((g.borderPoints.map fun p => manhattan p x y).min?).getD 0

/-- On a facet with border points, `borderDistance` is attained at some border
point and bounds the distance to every border point from below. -/
theorem borderDistance_spec (g : Facet) (x y : Nat)
    (hne : ¬ g.borderPoints.isEmpty = true) :
    (∃ p ∈ g.borderPoints, manhattan p x y = borderDistance g x y) ∧
      ∀ p ∈ g.borderPoints, borderDistance g x y ≤ manhattan p x y := by
  cases hm : (g.borderPoints.map fun p => manhattan p x y).min? with
  | none =>
    rw [List.min?_eq_none_iff, List.map_eq_nil_iff] at hm
    rw [hm] at hne
    simp at hne
  | some m =>
    have hmem := List.min?_mem (fun _ _ => min_choice _ _) hm
    have hle := (List.min?_eq_some_iff (le_refl) (fun _ _ => min_choice _ _)
      (fun _ _ _ => le_min_iff) |>.mp hm).2
    rw [List.mem_map] at hmem
    obtain ⟨p, hp, hpm⟩ := hmem
    refine ⟨⟨p, hp, ?_⟩, ?_⟩
    · rw [borderDistance, hm, Option.getD_some, hpm]
    · intro q hq
      rw [borderDistance, hm, Option.getD_some]
      exact hle _ (List.mem_map.mpr ⟨q, hq, rfl⟩)

/-- The bbox gap used to prune a neighbour in
`_get_closest_neighbour_for_pixel` never exceeds the true minimal border
distance, provided every border point lies inside the bbox. -/
theorem bboxGap_le_borderDistance (g : Facet) (x y : Nat)
    (hin : ∀ p ∈ g.borderPoints,
      g.bbox.minX ≤ (p.x : Int) ∧ (p.x : Int) ≤ g.bbox.maxX ∧
      g.bbox.minY ≤ (p.y : Int) ∧ (p.y : Int) ≤ g.bbox.maxY)
    (hne : ¬ g.borderPoints.isEmpty = true) :
    ((if (x : Int) < g.bbox.minX then g.bbox.minX - (x : Int)
      else if (x : Int) > g.bbox.maxX then (x : Int) - g.bbox.maxX else 0) +
     (if (y : Int) < g.bbox.minY then g.bbox.minY - (y : Int)
      else if (y : Int) > g.bbox.maxY then (y : Int) - g.bbox.maxY else 0)) ≤
      (borderDistance g x y : Int) := by
  obtain ⟨⟨p, hp, hpd⟩, _⟩ := borderDistance_spec g x y hne
  have h := hin p hp
  rw [← hpd]
  have hman : (manhattan p x y : Int) =
      (((p.x : Int) - (x : Int)).natAbs : Int) + (((p.y : Int) - (y : Int)).natAbs : Int) := by
    rw [manhattan]; push_cast; ring
  rw [hman]
  split <;> split <;> omega

/-- The scan loop of `_get_closest_neighbour_for_pixel` returns a neighbour
whose minimal border distance is smallest among the candidates still on the
list (given a sound accumulator), provided border points sit inside their
bboxes (so the prune is sound), every candidate distance is at least 1 (so
the distance-1 early return is sound), and some candidate is closer than the
`10 ** 9` sentinel (or the accumulator already holds one). -/
theorem closestLoop_min {α : Type} [LinearOrder α] (facets : List (Option Facet))
    (x y : Nat) (colorRow : Nat → α) (ns : List Nat)
    (hbbox : ∀ n ∈ ns, ∀ g : Facet, facets.getD n none = some g →
      ∀ p ∈ g.borderPoints,
        g.bbox.minX ≤ (p.x : Int) ∧ (p.x : Int) ≤ g.bbox.maxX ∧
        g.bbox.minY ≤ (p.y : Int) ∧ (p.y : Int) ≤ g.bbox.maxY)
    (hpos : ∀ n ∈ ns, ∀ g : Facet, facets.getD n none = some g →
      ¬ g.borderPoints.isEmpty = true → 1 ≤ borderDistance g x y) :
    ∀ (l : List Nat) (closest : Option Nat) (minDistance : Nat)
      (minColorDistance : WithTop α),
      (∀ n ∈ l, n ∈ ns) →
      minDistance ≤ 10 ^ 9 →
      (closest = none → minDistance = 10 ^ 9) →
      (∀ c, closest = some c → c ∈ ns ∧ ∃ g, facets.getD c none = some g ∧
        ¬ g.borderPoints.isEmpty = true ∧ borderDistance g x y = minDistance) →
      ((∃ n ∈ l, ∃ g : Facet, facets.getD n none = some g ∧
          ¬ g.borderPoints.isEmpty = true ∧ borderDistance g x y < 10 ^ 9) ∨
        closest ≠ none) →
      ∃ n g, closestLoop facets x y colorRow l closest minDistance minColorDistance
          = some n ∧
        n ∈ ns ∧ facets.getD n none = some g ∧ ¬ g.borderPoints.isEmpty = true ∧
        borderDistance g x y ≤ minDistance ∧
        ∀ m ∈ l, ∀ g' : Facet, facets.getD m none = some g' →
          ¬ g'.borderPoints.isEmpty = true →
          borderDistance g x y ≤ borderDistance g' x y := by
  intro l closest minDistance minColorDistance
  induction l, closest, minDistance, minColorDistance
    using closestLoop.induct facets x y colorRow with
  | case1 closest minDistance minColorDistance =>
    intro _ _ _ hcl hex
    rcases hex with ⟨n, hn, _⟩ | hne
    · exact absurd hn (List.not_mem_nil n)
    · cases hc : closest with
      | none => exact absurd hc hne
      | some c =>
        obtain ⟨hcn, g, hg, hgne, hbd⟩ := hcl c hc
        subst hc
        exact ⟨c, g, by rw [closestLoop], hcn, hg, hgne, le_of_eq hbd,
          fun m hm => absurd hm (List.not_mem_nil m)⟩
  | case2 nIdx rest closest minDistance minColorDistance hget ih =>
    intro hsub hminle hnone hcl hex
    obtain ⟨n, g, hloop, hns, hg, hgne, hle, hall⟩ :=
      ih (fun m hm => hsub m (List.mem_cons_of_mem _ hm)) hminle hnone hcl
        (by rcases hex with ⟨m, hm, gm, hgm, hrest⟩ | hne
            · rcases List.mem_cons.mp hm with h | h
              · subst h; rw [hget] at hgm; cases hgm
              · exact Or.inl ⟨m, h, gm, hgm, hrest⟩
            · exact Or.inr hne)
    refine ⟨n, g, by simp only [closestLoop, hget]; exact hloop, hns, hg, hgne, hle, ?_⟩
    intro m hm g' hg' hg'ne
    rcases List.mem_cons.mp hm with h | h
    · subst h; rw [hget] at hg'; cases hg'
    · exact hall m h g' hg' hg'ne
  | case3 nIdx rest closest minDistance minColorDistance neigh hget hemp ih =>
    intro hsub hminle hnone hcl hex
    obtain ⟨n, g, hloop, hns, hg, hgne, hle, hall⟩ :=
      ih (fun m hm => hsub m (List.mem_cons_of_mem _ hm)) hminle hnone hcl
        (by rcases hex with ⟨m, hm, gm, hgm, hgmne, hrest⟩ | hne
            · rcases List.mem_cons.mp hm with h | h
              · subst h; rw [hget] at hgm
                cases hgm; exact absurd hemp hgmne
              · exact Or.inl ⟨m, h, gm, hgm, hgmne, hrest⟩
            · exact Or.inr hne)
    refine ⟨n, g, by simp only [closestLoop, hget]; rw [if_pos hemp]; exact hloop,
      hns, hg, hgne, hle, ?_⟩
    intro m hm g' hg' hg'ne
    rcases List.mem_cons.mp hm with h | h
    · subst h; rw [hget] at hg'
      cases hg'; exact absurd hemp hg'ne
    · exact hall m h g' hg' hg'ne
  | case4 nIdx rest closest minDistance minColorDistance neigh hget hemp hprune ih =>
    intro hsub hminle hnone hcl hex
    have hgap := bboxGap_le_borderDistance neigh x y
      (hbbox nIdx (hsub nIdx (List.mem_cons_self nIdx rest)) neigh hget) hemp
    have hgt : minDistance < borderDistance neigh x y := by omega
    obtain ⟨n, g, hloop, hns, hg, hgne, hle, hall⟩ :=
      ih (fun m hm => hsub m (List.mem_cons_of_mem _ hm)) hminle hnone hcl
        (by rcases hex with ⟨m, hm, gm, hgm, hgmne, hrest⟩ | hne
            · rcases List.mem_cons.mp hm with h | h
              · subst h; rw [hget] at hgm
                cases hgm
                refine Or.inr ?_
                intro hc
                rw [hnone hc] at hgt
                omega
              · exact Or.inl ⟨m, h, gm, hgm, hgmne, hrest⟩
            · exact Or.inr hne)
    refine ⟨n, g, ?_, hns, hg, hgne, hle, ?_⟩
    · simp only [closestLoop, hget]
      rw [if_neg hemp, if_pos hprune]
      exact hloop
    · intro m hm g' hg' hg'ne
      rcases List.mem_cons.mp hm with h | h
      · subst h; rw [hget] at hg'
        cases hg'
        omega
      · exact hall m h g' hg' hg'ne
  | case5 nIdx rest closest minDistance minColorDistance neigh hget hemp hprune hlt h1 =>
    intro hsub hminle hnone hcl hex
    have hbd : borderDistance neigh x y
        = (List.map (fun p => manhattan p x y) neigh.borderPoints).min?.getD 0 := rfl
    refine ⟨nIdx, neigh, ?_, hsub nIdx (List.mem_cons_self nIdx rest), hget, hemp, ?_, ?_⟩
    · simp only [closestLoop, hget]
      rw [if_neg hemp, if_neg hprune, if_pos hlt, if_pos h1]
    · omega
    · intro m hm g' hg' hg'ne
      have := hpos m (hsub m hm) g' hg' hg'ne
      omega
  | case6 nIdx rest closest minDistance minColorDistance neigh hget hemp hprune hlt h1 ih =>
    intro hsub hminle hnone hcl _
    have hbd : borderDistance neigh x y
        = (List.map (fun p => manhattan p x y) neigh.borderPoints).min?.getD 0 := rfl
    obtain ⟨n, g, hloop, hns, hg, hgne, hle, hall⟩ :=
      ih (fun m hm => hsub m (List.mem_cons_of_mem _ hm)) (by omega)
        (fun h => Option.noConfusion h)
        (fun c hc => by
          injection hc with h
          subst h
          exact ⟨hsub nIdx (List.mem_cons_self nIdx rest), neigh, hget, hemp, rfl⟩)
        (Or.inr (fun h => Option.noConfusion h))
    refine ⟨n, g, ?_, hns, hg, hgne, by omega, ?_⟩
    · simp only [closestLoop, hget]
      rw [if_neg hemp, if_neg hprune, if_pos hlt, if_neg h1]
      exact hloop
    · intro m hm g' hg' hg'ne
      rcases List.mem_cons.mp hm with h | h
      · subst h; rw [hget] at hg'
        cases hg'
        omega
      · exact hall m h g' hg' hg'ne
  | case7 nIdx rest closest minColorDistance neigh hget hemp hcd hprune hnlt ih =>
    intro hsub hminle hnone hcl _
    have hbd : borderDistance neigh x y
        = (List.map (fun p => manhattan p x y) neigh.borderPoints).min?.getD 0 := rfl
    obtain ⟨n, g, hloop, hns, hg, hgne, hle, hall⟩ :=
      ih (fun m hm => hsub m (List.mem_cons_of_mem _ hm)) hminle
        (fun h => Option.noConfusion h)
        (fun c hc => by
          injection hc with h
          subst h
          exact ⟨hsub nIdx (List.mem_cons_self nIdx rest), neigh, hget, hemp, rfl⟩)
        (Or.inr (fun h => Option.noConfusion h))
    refine ⟨n, g, ?_, hns, hg, hgne, hle, ?_⟩
    · simp only [closestLoop, hget]
      rw [if_neg hemp, if_neg hprune, if_neg hnlt, if_pos trivial, if_pos hcd]
      exact hloop
    · intro m hm g' hg' hg'ne
      rcases List.mem_cons.mp hm with h | h
      · subst h; rw [hget] at hg'
        cases hg'
        omega
      · exact hall m h g' hg' hg'ne
  | case8 nIdx rest closest minColorDistance neigh hget hemp hncd hprune hnlt ih =>
    intro hsub hminle hnone hcl hex
    have hbd : borderDistance neigh x y
        = (List.map (fun p => manhattan p x y) neigh.borderPoints).min?.getD 0 := rfl
    obtain ⟨n, g, hloop, hns, hg, hgne, hle, hall⟩ :=
      ih (fun m hm => hsub m (List.mem_cons_of_mem _ hm)) hminle hnone hcl
        (by rcases hex with ⟨m, hm, gm, hgm, hgmne, hrest⟩ | hne
            · rcases List.mem_cons.mp hm with h | h
              · subst h; rw [hget] at hgm
                cases hgm
                refine Or.inr ?_
                intro hc
                have := hnone hc
                omega
              · exact Or.inl ⟨m, h, gm, hgm, hgmne, hrest⟩
            · exact Or.inr hne)
    refine ⟨n, g, ?_, hns, hg, hgne, hle, ?_⟩
    · simp only [closestLoop, hget]
      rw [if_neg hemp, if_neg hprune, if_neg hnlt, if_pos trivial, if_neg hncd]
      exact hloop
    · intro m hm g' hg' hg'ne
      rcases List.mem_cons.mp hm with h | h
      · subst h; rw [hget] at hg'
        cases hg'
        omega
      · exact hall m h g' hg' hg'ne
  | case9 nIdx rest closest minDistance minColorDistance neigh hget hemp hprune hnlt hneq ih =>
    intro hsub hminle hnone hcl hex
    have hbd : borderDistance neigh x y
        = (List.map (fun p => manhattan p x y) neigh.borderPoints).min?.getD 0 := rfl
    obtain ⟨n, g, hloop, hns, hg, hgne, hle, hall⟩ :=
      ih (fun m hm => hsub m (List.mem_cons_of_mem _ hm)) hminle hnone hcl
        (by rcases hex with ⟨m, hm, gm, hgm, hgmne, hrest⟩ | hne
            · rcases List.mem_cons.mp hm with h | h
              · subst h; rw [hget] at hgm
                cases hgm
                refine Or.inr ?_
                intro hc
                have := hnone hc
                omega
              · exact Or.inl ⟨m, h, gm, hgm, hgmne, hrest⟩
            · exact Or.inr hne)
    refine ⟨n, g, ?_, hns, hg, hgne, hle, ?_⟩
    · simp only [closestLoop, hget]
      rw [if_neg hemp, if_neg hprune, if_neg hnlt, if_neg hneq]
      exact hloop
    · intro m hm g' hg' hg'ne
      rcases List.mem_cons.mp hm with h | h
      · subst h; rw [hget] at hg'
        cases hg'
        omega
      · exact hall m h g' hg' hg'ne

/-- The mutable state threaded through the reducer: the facet structure, the
color-index grid `IDX`, and the shared visited cache. -/
structure ReduceState where
  fr : FacetResult
  img : Grid Nat
  visited : Grid Bool
deriving DecidableEq, Repr

/-- Replace slot `i` of the facet list. -/
def setFacet (fr : FacetResult) (i : Nat) (f : Option Facet) : FacetResult :=
  { fr with facets := fr.facets.set i f }

/-- Inclusive integer range `lo..hi` (empty when `hi < lo`), mirroring the
Python `range(lo, hi + 1)` loops over bbox coordinates. -/
def intRange (lo hi : Int) : List Int :=
  (List.range (hi + 1 - lo).toNat).map fun k => lo + (k : Int)

/-- Python `set.add` on an insertion-ordered duplicate-free list. -/
def insertOnce (l : List Nat) (n : Nat) : List Nat :=
  if n ∈ l then l else l ++ [n]

/-- `FacetReducer._rebuild_changed_neighbour_facets`: for each neighbour of
the removed facet, record it and its own neighbours as changed, rebuild it in
place by flood filling from its first border point (marking it absent when
the rebuild finds no pixels), then reset the visited cache on the rebuilt
facets' pixels and mark every changed facet's neighbour list dirty. -/
def rebuild_changed_neighbour_facets (removedId : Nat) (st : ReduceState) : ReduceState :=
  match st.fr.facets.getD removedId none with
  | none => st
  | some f0 =>
    match f0.neighbourFacets with
    | none => st
    | some ns0 =>
      if ns0.isEmpty then st
      else
        let p1 :=
          if f0.neighbourFacetsIsDirty then
            let f' := FacetBuilder.build_facet_neighbour f0 st.fr
            (f', { st with fr := setFacet st.fr removedId (some f') })
          else (f0, st)
        let neighbourIndices := p1.1.neighbourFacets.getD []
        let loopRes := neighbourIndices.foldl
          (fun (acc : ReduceState × List Nat × List Nat) nIdx =>
            let st := acc.1
            let changed := acc.2.1
            let rebuilt := acc.2.2
            match st.fr.facets.getD nIdx none with
            | none => acc
            | some neigh0 =>
              let changed := insertOnce changed nIdx
              let p2 :=
                if neigh0.neighbourFacetsIsDirty then
                  let n' := FacetBuilder.build_facet_neighbour neigh0 st.fr
                  (n', { st with fr := setFacet st.fr nIdx (some n') })
                else (neigh0, st)
              let neigh := p2.1
              let st := p2.2
              let changed := (neigh.neighbourFacets.getD []).foldl insertOnce changed
              if ¬ neigh.borderPoints.isEmpty ∧ nIdx ∉ rebuilt then
                let bp := neigh.borderPoints.headD ⟨0, 0⟩
                let r := FacetBuilder.build_facet nIdx neigh.color bp.x bp.y st.visited
                  st.img st.fr
                let st : ReduceState :=
                  { fr := setFacet r.2.2 nIdx (some r.1), img := st.img, visited := r.2.1 }
                let st := if r.1.pointCount = 0
                  then { st with fr := setFacet st.fr nIdx none } else st
                (st, changed, rebuilt ++ [nIdx])
              else (st, changed, rebuilt))
          (p1.2, ([] : List Nat), ([] : List Nat))
        let st2 := loopRes.1
        let st3 := neighbourIndices.foldl (fun (st : ReduceState) nIdx =>
          match st.fr.facets.getD nIdx none with
          | none => st
          | some neigh =>
            let visited' := (intRange neigh.bbox.minY neigh.bbox.maxY).foldl (fun vis yy =>
              (intRange neigh.bbox.minX neigh.bbox.maxX).foldl (fun (vis : Grid Bool) xx =>
                if st.fr.facetMap.get xx.toNat yy.toNat = neigh.id
                then vis.set xx.toNat yy.toNat false else vis) vis) st.visited
            { st with visited := visited' }) st2
        loopRes.2.1.foldl (fun (st : ReduceState) k =>
          match st.fr.facets.getD k none with
          | none => st
          | some f =>
            let f' := { f with neighbourFacets := none, neighbourFacetsIsDirty := true }
            { st with fr := setFacet st.fr k (some f') }) st3

/-- One direction probe of the fallback sweep of
`_rebuild_for_facet_change`: read the facet id next to the orphan pixel and,
when it is a different and present facet, recolor the orphan to its color. -/
def fallbackTry (removedId x y nx ny : Nat) (st : ReduceState) : Option ReduceState :=
  let neighId := st.fr.facetMap.get nx ny
  if neighId ≠ removedId then
    match st.fr.facets.getD neighId none with
    | some neigh => some { st with img := st.img.set x y neigh.color }
    | none => none
  else none

/-- `FacetReducer._rebuild_for_facet_change`: rebuild the neighbours, then
sweep the removed facet's bbox for pixels still carrying the removed id and
recolor each from its first assignable 4-neighbour (left, up, right, down);
when any orphan was found, run the neighbour rebuild a second time. -/
def rebuild_for_facet_change (removedId : Nat) (st : ReduceState) : ReduceState :=
  match st.fr.facets.getD removedId none with
  | none => st
  | some f =>
    let st1 := rebuild_changed_neighbour_facets removedId st
    let width := st1.fr.width
    let height := st1.fr.height
    let sweep := (intRange f.bbox.minY f.bbox.maxY).foldl (fun (acc : ReduceState × Bool) yy =>
      (intRange f.bbox.minX f.bbox.maxX).foldl (fun (acc : ReduceState × Bool) xx =>
        let st := acc.1
        let x := xx.toNat
        let y := yy.toNat
        if st.fr.facetMap.get x y ≠ removedId then acc
        else
          let r1 := if 0 < x then fallbackTry removedId x y (x - 1) y st else none
          match r1 with
          | some st' => (st', true)
          | none =>
            let r2 := if 0 < y then fallbackTry removedId x y x (y - 1) st else none
            match r2 with
            | some st' => (st', true)
            | none =>
              let r3 := if x + 1 < width then fallbackTry removedId x y (x + 1) y st else none
              match r3 with
              | some st' => (st', true)
              | none =>
                let r4 := if y + 1 < height then fallbackTry removedId x y x (y + 1) st
                  else none
                match r4 with
                | some st' => (st', true)
                | none => (st, true)) acc) (st1, false)
    if sweep.2 then rebuild_changed_neighbour_facets removedId sweep.1 else sweep.1

/-- `FacetReducer._delete_facet`: refresh the facet's neighbour list when
dirty; when there are no neighbours just tombstone the slot; otherwise
reassign every bbox pixel still mapped to the facet to its closest
neighbour's color, rebuild the affected neighbours, and tombstone the slot. -/
def delete_facet [LinearOrder α] (colorDistances : Nat → Nat → α)
    (facetIdToRemove : Nat) (st : ReduceState) : ReduceState :=
  if facetIdToRemove < st.fr.facets.length then
    match st.fr.facets.getD facetIdToRemove none with
    | none => st
    | some f0 =>
      let p1 :=
        if f0.neighbourFacetsIsDirty then
          let f' := FacetBuilder.build_facet_neighbour f0 st.fr
          (f', { st with fr := setFacet st.fr facetIdToRemove (some f') })
        else (f0, st)
      let f := p1.1
      let st1 := p1.2
      match f.neighbourFacets with
      | none => { st1 with fr := setFacet st1.fr f.id none }
      | some ns =>
        if ns.isEmpty then { st1 with fr := setFacet st1.fr f.id none }
        else
          let pixels := (intRange f.bbox.minY f.bbox.maxY).flatMap (fun yy =>
            (intRange f.bbox.minX f.bbox.maxX).filterMap (fun xx =>
              if st1.fr.facetMap.get xx.toNat yy.toNat = f.id
              then some (xx.toNat, yy.toNat) else none))
          let st2 := pixels.foldl (fun (st : ReduceState) p =>
            match get_closest_neighbour_for_pixel f st.fr p.1 p.2 colorDistances with
            | none => st
            | some cn =>
              match st.fr.facets.getD cn none with
              | none => st
              | some neigh => { st with img := st.img.set p.1 p.2 neigh.color }) st1
          let st3 := rebuild_for_facet_change f.id st2
          { st3 with fr := setFacet st3.fr f.id none }
  else st

/-- The `facets[fid].pointCount` sort key (the default is never used: the
sorted ids are drawn from present slots, where Python would have raised). -/
def pointCountKey (st : ReduceState) (fid : Nat) : Nat :=
  ((st.fr.facets.getD fid none).map Facet.pointCount).getD 0

/-- The phase-2 cap loop of `reduce_facets`: while more than `m` facets are
counted, delete the facet with the smallest point count (ascending stable
sort, first element).  The absent-slot retry of the source is unreachable
because the ids are drawn from present slots. -/
def capLoop [LinearOrder α] (colorDistances : Nat → Nat → α) (m : Nat)
    (st : ReduceState) (facetCount : Nat) : ReduceState × Nat :=
  if m < facetCount then
    let currentIds := st.fr.facets.filterMap (fun of => of.map Facet.id)
    if currentIds.isEmpty then (st, facetCount)
    else
      let sorted := currentIds.mergeSort (fun a b => pointCountKey st a ≤ pointCountKey st b)
      let smallestId := sorted.headD 0
      match st.fr.facets.getD smallestId none with
      | none => (st, facetCount)
      | some f =>
        capLoop colorDistances m (delete_facet colorDistances f.id st) (facetCount - 1)
  else (st, facetCount)
termination_by facetCount
decreasing_by omega

/-- `FacetReducer.reduce_facets`, generic in the color-distance matrix: the
quick guard, the snapshot processing order (stable sort by point count,
descending, reversed when removing small first), the threshold pass, and the
cap pass.  Progress callbacks (wall-clock throttled) are not modelled. -/
def reduce_facets_with [LinearOrder α] (colorDistances : Nat → Nat → α)
    (smallerThan : Int) (removeFacetsFromLargeToSmall : Bool)
    (maximumNumberOfFacets : Option Nat)
    (facetResult : FacetResult) (imgColorIndices : Grid Nat) :
    FacetResult × Grid Nat :=
  if smallerThan ≤ 0 ∧ maximumNumberOfFacets = none then (facetResult, imgColorIndices)
  else
    let st0 : ReduceState :=
      ⟨facetResult, imgColorIndices, Grid.const facetResult.width facetResult.height false⟩
    let ids0 := st0.fr.facets.filterMap (fun of => of.map Facet.id)
    let sortedDesc := ids0.mergeSort (fun a b => pointCountKey st0 b ≤ pointCountKey st0 a)
    let processingIds := if removeFacetsFromLargeToSmall then sortedDesc else sortedDesc.reverse
    let facetCount0 := (st0.fr.facets.filterMap id).length
    let phase1 := processingIds.foldl (fun (acc : ReduceState × Nat) fid =>
      match acc.1.fr.facets.getD fid none with
      | none => acc
      | some f =>
        if (f.pointCount : Int) < smallerThan then
          (delete_facet colorDistances f.id acc.1, acc.2 - 1)
        else acc) (st0, facetCount0)
    let final := match maximumNumberOfFacets with
      | none => phase1.1
      | some m =>
        if m < phase1.2 then (capLoop colorDistances m phase1.1 phase1.2).1 else phase1.1
    (final.fr, final.img)

/-- `FacetReducer.reduce_facets` proper, with the Euclidean color-distance
matrix built from the palette. -/
noncomputable def reduce_facets (smallerThan : Int)
    (removeFacetsFromLargeToSmall : Bool) (maximumNumberOfFacets : Option Nat)
    (colorsByIndex : List (Nat × Nat × Nat)) (facetResult : FacetResult)
    (imgColorIndices : Grid Nat) : FacetResult × Grid Nat :=
  reduce_facets_with (build_color_distance_matrix colorsByIndex) smallerThan
    removeFacetsFromLargeToSmall maximumNumberOfFacets facetResult imgColorIndices

end FacetReducer

/-! ## `paintbynumbers/algorithms/polylabel.py` — pole of inaccessibility

Coordinates are exact rationals; distances (which take square roots) are
reals.  The float-infinity initialisers of the bbox scan are modelled by
folding from the first vertex (equal for the non-empty rings on which the
function is defined; an empty outer ring or ring list raises `IndexError` in
Python, modelled by `none`).  The heap is modelled as a list popped at a
maximal-priority element; the unbounded `while` loop over the heap carries an
explicit fuel argument (the branch the claims concern returns before it). -/

namespace Polylabel

/-- `_get_seg_dist_sq`: squared distance from `(px, py)` to segment `a b`. -/
def get_seg_dist_sq (px py : ℚ) (a b : ℚ × ℚ) : ℚ :=
  let x := a.1
  let y := a.2
  let dx := b.1 - x
  let dy := b.2 - y
  let p :=
    if dx ≠ 0 ∨ dy ≠ 0 then
      let t := ((px - x) * dx + (py - y) * dy) / (dx * dx + dy * dy)
      if t > 1 then (b.1, b.2)
      else if t > 0 then (x + dx * t, y + dy * t)
      else (x, y)
    else (x, y)
  (px - p.1) * (px - p.1) + (py - p.2) * (py - p.2)

/-- The cyclic segment pairs `(ring[i], ring[j])` with `j = i - 1 mod n`,
matching the `j = ring_len - 1 … j = i` walk of the source. -/
def segPairs (ring : List (ℚ × ℚ)) : List ((ℚ × ℚ) × (ℚ × ℚ)) :=
  match ring.getLast? with
  | none => []
  | some lastP => ring.zip (lastP :: ring.dropLast)

/-- One ring of `_point_to_polygon_dist`: thread the ray-casting parity and
the minimum squared segment distance (`float('inf')` start modelled by `⊤`). -/
def ringFold (x y : ℚ) (ring : List (ℚ × ℚ)) (acc : Bool × WithTop ℚ) : Bool × WithTop ℚ :=
  (segPairs ring).foldl (fun acc ab =>
    let a := ab.1
    let b := ab.2
    let inside :=
      if (decide (a.2 > y) ≠ decide (b.2 > y)) ∧
          x < (b.1 - a.1) * (y - a.2) / (b.2 - a.2) + a.1
      then ! acc.1 else acc.1
    (inside, min acc.2 ((get_seg_dist_sq x y a b : ℚ) : WithTop ℚ))) acc

/-- The parity and minimum squared distance of `_point_to_polygon_dist`. -/
def point_to_polygon_state (x y : ℚ) (polygon : List (List (ℚ × ℚ))) : Bool × WithTop ℚ :=
  polygon.foldl (fun acc ring => ringFold x y ring acc) (false, ⊤)

/-- `_point_to_polygon_dist`: signed distance from the point to the outline
(negative outside). -/
noncomputable def point_to_polygon_dist (x y : ℚ) (polygon : List (List (ℚ × ℚ))) : ℝ :=
  let s := point_to_polygon_state x y polygon
  (if s.1 then 1 else -1) * Real.sqrt ((s.2.untop' 0 : ℚ) : ℝ)

/-- `_Cell`: centre, half-size, distance, and the upper bound
`d + h * sqrt 2` used as heap priority. -/
structure Cell where
  x : ℚ
  y : ℚ
  h : ℚ
  d : ℝ
  max : ℝ

/-- The `_Cell` constructor. -/
noncomputable def mkCell (x y h : ℚ) (polygon : List (List (ℚ × ℚ))) : Cell :=
  let d := point_to_polygon_dist x y polygon
  ⟨x, y, h, d, d + (h : ℝ) * Real.sqrt 2⟩

/-- The centroid accumulator of `_get_centroid_cell`. -/
def centroidFold (points : List (ℚ × ℚ)) : ℚ × ℚ × ℚ :=
  (segPairs points).foldl (fun acc ab =>
    let a := ab.1
    let b := ab.2
    let f := a.1 * b.2 - b.1 * a.2
    (acc.1 + (a.1 + b.1) * f, acc.2.1 + (a.2 + b.2) * f, acc.2.2 + f * 3)) (0, 0, 0)

/-- `_get_centroid_cell`: the area-weighted centroid of the outer ring, or
its first vertex when the signed area vanishes. -/
noncomputable def get_centroid_cell (polygon : List (List (ℚ × ℚ))) : Cell :=
  let points := polygon.headD []
  let c := centroidFold points
  if c.2.2 = 0 then mkCell (points.headD (0, 0)).1 (points.headD (0, 0)).2 0 polygon
  else mkCell (c.1 / c.2.2) (c.2.1 / c.2.2) 0 polygon

/-- Pop a maximal-priority cell (the `heapq` pop under the reversed `__lt__`
of `_Cell`; the tie order inside the heap is unspecified, the earliest
maximal element is taken here). -/
noncomputable def popMax : List Cell → Option (Cell × List Cell)
  | [] => none
  | c :: rest =>
    match popMax rest with
    | none => some (c, [])
    | some (m, others) => if m.max > c.max then some (m, c :: others) else some (c, rest)

/-- The `while cell_queue` loop of `polylabel`, with explicit fuel (the
Python loop terminates for positive precision; every claim below concerns
the degenerate branch, which returns before this loop). -/
noncomputable def searchLoop (polygon : List (List (ℚ × ℚ))) (precision : ℚ) :
    Nat → List Cell → Cell → Cell
  | 0, _, best => best
  | fuel + 1, queue, best =>
    match popMax queue with
    | none => best
    | some (cell, rest) =>
      let best := if cell.d > best.d then cell else best
      if cell.max - best.d ≤ (precision : ℝ) then searchLoop polygon precision fuel rest best
      else
        let h := cell.h / 2
        let q := rest ++ [mkCell (cell.x - h) (cell.y - h) h polygon,
          mkCell (cell.x + h) (cell.y - h) h polygon,
          mkCell (cell.x - h) (cell.y + h) h polygon,
          mkCell (cell.x + h) (cell.y + h) h polygon]
        searchLoop polygon precision fuel q best

/-- The cell start offsets of the initial covering loops
(`while y < max_y` / `while x < max_x` stepping by `cell_size`). -/
def coverStarts (mn mx step : ℚ) : List ℚ :=
  (List.range (((mx - mn) / step).ceil.toNat)).map fun k => mn + (k : ℚ) * step

/-- `polylabel(polygon, precision)`: bbox of the outer ring, the degenerate
early return `((min_x, min_y), 0)` when the bbox has zero width or height,
otherwise the quadtree search seeded with the covering cells, the centroid
cell and the bbox-centre cell.  `none` models the `IndexError` on an empty
ring list or outer ring. -/
noncomputable def polylabel (fuel : Nat) (polygon : List (List (ℚ × ℚ)))
    (precision : ℚ) : Option ((ℚ × ℚ) × ℝ) :=
  match polygon with
  | [] => none
  | ring0 :: _ =>
    match ring0 with
    | [] => none
    | p0 :: restPts =>
      let minX := restPts.foldl (fun m p => min m p.1) p0.1
      let minY := restPts.foldl (fun m p => min m p.2) p0.2
      let maxX := restPts.foldl (fun m p => max m p.1) p0.1
      let maxY := restPts.foldl (fun m p => max m p.2) p0.2
      let width := maxX - minX
      let height := maxY - minY
      let cellSize := min width height
      let h := cellSize / 2
      if cellSize = 0 then some ((minX, minY), (0 : ℝ))
      else
        let queue0 := (coverStarts minY maxY cellSize).flatMap fun yy =>
          (coverStarts minX maxX cellSize).map fun xx => mkCell (xx + h) (yy + h) h polygon
        let best0 := get_centroid_cell polygon
        let bboxCell := mkCell (minX + width / 2) (minY + height / 2) 0 polygon
        let best1 := if bboxCell.d > best0.d then bboxCell else best0
        let bestF := searchLoop polygon precision fuel queue0 best1
        some ((bestF.x, bestF.y), bestF.d)

end Polylabel

/-! ## Claim C7 and C9 — `Vector.average` -/

instance : Inhabited Vec :=
  ⟨{ values := [], weight := 1, tag := none }⟩

/-- Claim C7, counterexample: the claim says `Vector.average` raises an
error exactly when its input list is empty, but the singleton list holding a
vector of weight `0` is non-empty and still errors (`ZeroDivisionError` when
normalising by the zero weight sum). -/
theorem c7_average_error_counterexample :
    Vec.average [{ values := [1], weight := 0, tag := none }] = none ∧
      ([{ values := [1], weight := 0, tag := none }] : List Vec) ≠ [] := by
  constructor
  · rw [Vec.average]
    norm_num
  · simp

/-- Claim C7, amended: `Vector.average` errors exactly when the list is
empty, some vector has fewer dimensions than the first, or the weights sum
to zero while the first vector has at least one dimension (with no
dimensions the division loop never runs, so a zero weight sum returns the
empty vector instead of raising); on every non-empty list of
equal-dimension vectors with positive total weight it returns the weighted
centroid — i-th value `(Σ w_j v_j[i]) / (Σ w_j)` — with weight `Σ w_j`. -/
theorem c7_average_amended (vectors : List Vec) :
    (Vec.average vectors = none ↔
      vectors = [] ∨
        (∃ v ∈ vectors, v.values.length < (vectors.headD default).values.length) ∨
        ((vectors.map Vec.weight).sum = 0 ∧
          0 < (vectors.headD default).values.length)) ∧
    (∀ v0 vs, vectors = v0 :: vs →
      (∀ v ∈ vectors, v.values.length = v0.values.length) →
      0 < (vectors.map Vec.weight).sum →
      ∃ u, Vec.average vectors = some u ∧
        u.weight = (vectors.map Vec.weight).sum ∧
        u.values.length = v0.values.length ∧
        ∀ i, i < v0.values.length →
          u.values.getD i 0 =
            (vectors.map fun v => v.weight * v.values.getD i 0).sum /
              (vectors.map Vec.weight).sum) := by
  constructor
  · cases vectors with
    | nil => simp [Vec.average]
    | cons v0 vs =>
      rw [Vec.average]
      simp only [List.headD_cons]
      constructor
      · intro hnone
        by_cases hany : (v0 :: vs).any fun v => v.values.length < v0.values.length
        · refine Or.inr (Or.inl ?_)
          rw [List.any_eq_true] at hany
          obtain ⟨v, hv, hlt⟩ := hany
          exact ⟨v, hv, by simpa using hlt⟩
        · rw [if_neg (by simpa using hany)] at hnone
          by_cases hws : ((v0 :: vs).map Vec.weight).sum = 0 ∧ 0 < v0.values.length
          · exact Or.inr (Or.inr hws)
          · rw [if_neg hws] at hnone
            simp at hnone
      · intro hcase
        rcases hcase with hnil | ⟨v, hv, hlt⟩ | hws
        · simp at hnil
        · rw [if_pos]
          rw [List.any_eq_true]
          exact ⟨v, hv, by simpa using hlt⟩
        · by_cases hany : (v0 :: vs).any fun v => v.values.length < v0.values.length
          · rw [if_pos hany]
          · rw [if_neg hany, if_pos hws]
  · intro v0 vs hcons hdims hpos
    subst hcons
    have hws : ¬ (((v0 :: vs).map Vec.weight).sum = 0 ∧ 0 < v0.values.length) :=
      fun h => ne_of_gt hpos h.1
    have hany : ¬ (v0 :: vs).any fun v => v.values.length < v0.values.length := by
      rw [List.any_eq_true]
      push_neg
      intro v hv
      rw [hdims v hv]
      simp
    rw [Vec.average, if_neg (by simpa using hany), if_neg hws]
    refine ⟨_, rfl, rfl, ?_, ?_⟩
    · simp
    · intro i hi
      rw [List.getD_eq_getElem?_getD, List.getElem?_map, List.getElem?_map,
        List.getElem?_range hi]
      simp

/-- Claim C7, witness: the amended theorem applied to a concrete two-vector
list, with every hypothesis discharged and the centroid values evaluated. -/
theorem c7_average_amended_witness :
    ∃ u, Vec.average [{ values := [0, 0], weight := 1, tag := none },
        { values := [10, 10], weight := 2, tag := none }] = some u ∧
      u.weight = 3 ∧ u.values.getD 0 0 = 20 / 3 := by
  obtain ⟨u, hu, hw, hlen, hval⟩ :=
    (c7_average_amended [{ values := [0, 0], weight := 1, tag := none },
      { values := [10, 10], weight := 2, tag := none }]).2 _ _ rfl
      (by intro v hv; simp at hv; rcases hv with rfl | rfl <;> rfl)
      (by simp; norm_num)
  refine ⟨u, hu, by rw [hw]; simp; norm_num, ?_⟩
  have h0 := hval 0 (by norm_num)
  rw [h0]
  simp
  norm_num

/-- Auxiliary: folding list append over singletons rebuilds the list. -/
theorem foldl_append_singleton (l acc : List Point) :
    l.foldl (fun a p => a ++ [p]) acc = acc ++ l := by
  induction l generalizing acc with
  | nil => simp
  | cons p rest ih => simp [ih]

/-- Claim C4 (code bug): on the 3×3 mask that excludes only `(1,0)` and
`(1,1)`, with seed `(0,0)`, the scanline `fill` returns only 5 pixels:
`(2,0)` and `(2,1)` satisfy the predicate and are 4-connected to the
returned region through `(2,2)`, yet are missing — the span on row 2 is
reached scanning downward and its overhang is never rescanned upward,
contradicting the module's own docstring (guaranteed complete coverage).
The stack-based `fill` of the sibling module returns all 7 pixels. -/
theorem c4_scanline_fill_misses_reachable_pixels :
    FloodFillScan.fill ⟨0, 0⟩ 3 3 (fun x y => !(x == 1 && y ≤ 1)) =
      [⟨0, 0⟩, ⟨0, 1⟩, ⟨0, 2⟩, ⟨1, 2⟩, ⟨2, 2⟩] ∧
    Point.mk 2 0 ∉ FloodFillScan.fill ⟨0, 0⟩ 3 3 (fun x y => !(x == 1 && y ≤ 1)) ∧
    Point.mk 2 1 ∉ FloodFillScan.fill ⟨0, 0⟩ 3 3 (fun x y => !(x == 1 && y ≤ 1)) ∧
    (fun x y => !(x == 1 && y ≤ 1)) 2 0 = true ∧
    (fun x y => !(x == 1 && y ≤ 1)) 2 1 = true ∧
    Point.mk 2 0 ∈ FloodFillStack.fill ⟨0, 0⟩ 3 3 (fun x y => !(x == 1 && y ≤ 1)) ∧
    Point.mk 2 1 ∈ FloodFillStack.fill ⟨0, 0⟩ 3 3 (fun x y => !(x == 1 && y ≤ 1)) := by
  refine ⟨?_, ?_, ?_, by decide, by decide, ?_, ?_⟩ <;>
    simp +decide [FloodFillScan.fill, FloodFillScan.fillLoop.eq_def,
      FloodFillScan.extendLeft.eq_def, FloodFillScan.extendRight.eq_def,
      FloodFillScan.scanLine.eq_def, FloodFillStack.fill, FloodFillStack.fillLoop.eq_def,
      FloodFillStack.pushNeighbors]

/-- Claim C5, counterexample: from seed `(2,0)` on the same 3×3 mask the
stack-based fill reaches `(0,0)` but the scanline fill does not, so the two
implementations do not produce the same set of pixels. -/
theorem c5_fills_differ_counterexample :
    Point.mk 0 0 ∈ FloodFillStack.fill ⟨2, 0⟩ 3 3 (fun x y => !(x == 1 && y ≤ 1)) ∧
    Point.mk 0 0 ∉ FloodFillScan.fill ⟨2, 0⟩ 3 3 (fun x y => !(x == 1 && y ≤ 1)) := by
  constructor <;>
    simp +decide [FloodFillScan.fill, FloodFillScan.fillLoop.eq_def,
      FloodFillScan.extendLeft.eq_def, FloodFillScan.extendRight.eq_def,
      FloodFillScan.scanLine.eq_def, FloodFillStack.fill, FloodFillStack.fillLoop.eq_def,
      FloodFillStack.pushNeighbors]

/-- Claim C5, amended: within each implementation, `fill_with_callback`
invokes its callback exactly once per pixel of that implementation's `fill`
result, in the same order, and returns that list's length as the count; the
pixel list of each implementation is duplicate-free.  The two
implementations need not produce the same set (see the counterexample). -/
theorem c5_fill_with_callback_amended (start : Point) (w h : Nat)
    (inc : Nat → Nat → Bool) :
    FloodFillStack.fillWithCallback start w h (fun _ x y => inc x y)
        (fun l x y => l ++ [Point.mk x y]) ([] : List Point) =
      (FloodFillStack.fill start w h inc, (FloodFillStack.fill start w h inc).length) ∧
    FloodFillScan.fillWithCallback start w h (fun _ x y => inc x y)
        (fun l x y => l ++ [Point.mk x y]) ([] : List Point) =
      (FloodFillScan.fill start w h inc, (FloodFillScan.fill start w h inc).length) ∧
    (FloodFillStack.fill start w h inc).Nodup ∧
    (FloodFillScan.fill start w h inc).Nodup := by
  have hfoldl : ∀ (l : List Point),
      l.foldl (fun (a : List Point) p => a ++ [Point.mk p.x p.y]) [] = l := by
    intro l
    have : (fun (a : List Point) p => a ++ [Point.mk p.x p.y]) =
        fun (a : List Point) p => a ++ [p] := rfl
    rw [this, foldl_append_singleton]
    simp
  refine ⟨?_, ?_, (FloodFillStack.fillLoop_nodup w h inc [start] ∅).2, ?_⟩
  · rw [FloodFillStack.fillWithCallback, FloodFillStack.fill,
      FloodFillStack.fillCBLoop_eq_fillLoop]
    rw [hfoldl]
    simp
  · rw [FloodFillScan.fillWithCallback, FloodFillScan.fill]
    by_cases hb : ¬ (start.x < w ∧ start.y < h)
    · rw [if_pos hb, if_pos hb]
      simp
    · rw [if_neg hb, if_neg hb]
      by_cases hinc : ¬ inc start.x start.y
      · rw [if_pos (by simpa using hinc), if_pos hinc]
        simp
      · rw [if_neg (by simpa using hinc), if_neg hinc,
          FloodFillScan.scan_fillCBLoop_eq_fillLoop]
        rw [hfoldl]
        simp
  · rw [FloodFillScan.fill]
    by_cases hb : ¬ (start.x < w ∧ start.y < h)
    · rw [if_pos hb]; exact List.nodup_nil
    · rw [if_neg hb]
      by_cases hinc : ¬ inc start.x start.y
      · rw [if_pos hinc]; exact List.nodup_nil
      · rw [if_neg hinc]
        exact (FloodFillScan.scan_fillLoop_nodup w h inc [(start.x, start.y, 0)] ∅).2

/-- Claim C10, counterexample: the degenerate polygon whose outer ring is
`[(0,5), (0,0)]` (zero width) makes `polylabel` return the bbox minimum
corner `(0,0)` with distance 0 — not the ring's first vertex `(0,5)`. -/
theorem c10_polylabel_degenerate_counterexample :
    Polylabel.polylabel 0 [[((0 : ℚ), (5 : ℚ)), (0, 0)]] 1 = some ((0, 0), (0 : ℝ)) ∧
      (([[((0 : ℚ), (5 : ℚ)), (0, 0)]].headD []).headD (0, 0)) = (0, 5) ∧
      ((0 : ℚ), (5 : ℚ)) ≠ ((0 : ℚ), (0 : ℚ)) := by
  refine ⟨?_, rfl, by norm_num⟩
  rw [Polylabel.polylabel]
  norm_num

/-- Claim C10, amended: for every polygon whose outer ring is non-empty and
has a degenerate (zero-width or zero-height) bounding box, `polylabel`
returns the minimum corner `(min_x, min_y)` of that bounding box with
distance 0 (which is the first vertex only when that vertex happens to be
the corner). -/
theorem c10_polylabel_degenerate_amended (fuel : Nat) (p0 : ℚ × ℚ)
    (restPts : List (ℚ × ℚ)) (rest : List (List (ℚ × ℚ))) (precision : ℚ)
    (hdeg : min (restPts.foldl (fun m p => max m p.1) p0.1 -
          restPts.foldl (fun m p => min m p.1) p0.1)
        (restPts.foldl (fun m p => max m p.2) p0.2 -
          restPts.foldl (fun m p => min m p.2) p0.2) = 0) :
    Polylabel.polylabel fuel ((p0 :: restPts) :: rest) precision =
      some ((restPts.foldl (fun m p => min m p.1) p0.1,
        restPts.foldl (fun m p => min m p.2) p0.2), (0 : ℝ)) := by
  rw [Polylabel.polylabel]
  rw [if_pos hdeg]

/-- Claim C10, witness: the amended theorem applied to the zero-height ring
`[(0,0), (3,0)]`, with the degeneracy hypothesis evaluated. -/
theorem c10_polylabel_degenerate_amended_witness :
    min (([((3 : ℚ), (0 : ℚ))].foldl (fun m p => max m p.1) 0) -
        ([((3 : ℚ), (0 : ℚ))].foldl (fun m p => min m p.1) 0))
      (([((3 : ℚ), (0 : ℚ))].foldl (fun m p => max m p.2) 0) -
        ([((3 : ℚ), (0 : ℚ))].foldl (fun m p => min m p.2) 0)) = 0 ∧
    Polylabel.polylabel 7 [[((0 : ℚ), (0 : ℚ)), (3, 0)]] 1 =
      some ((([((3 : ℚ), (0 : ℚ))].foldl (fun m p => min m p.1) 0),
        ([((3 : ℚ), (0 : ℚ))].foldl (fun m p => min m p.2) 0)), (0 : ℝ)) := by
  have hdeg : min (([((3 : ℚ), (0 : ℚ))].foldl (fun m p => max m p.1) 0) -
        ([((3 : ℚ), (0 : ℚ))].foldl (fun m p => min m p.1) 0))
      (([((3 : ℚ), (0 : ℚ))].foldl (fun m p => max m p.2) 0) -
        ([((3 : ℚ), (0 : ℚ))].foldl (fun m p => min m p.2) 0)) = 0 := by
    simp
  exact ⟨hdeg, c10_polylabel_degenerate_amended 7 (0, 0) [(3, 0)] [] 1 hdeg⟩

/-- Auxiliary: a defaulted list read returning `some` implies the index is
within range. -/
theorem getD_some_lt {l : List (Option Facet)} {i : Nat} {f : Facet}
    (h : l.getD i none = some f) : i < l.length := by
  by_contra hge
  rw [List.getD_eq_getElem?_getD, List.getElem?_eq_none (by omega)] at h
  simp at h

/-- Auxiliary: `build_facet_neighbour` keeps the facet id. -/
theorem build_facet_neighbour_id (facet : Facet) (fr : FacetResult) :
    (FacetBuilder.build_facet_neighbour facet fr).id = facet.id := by
  rw [FacetBuilder.build_facet_neighbour]
  split <;> rfl

/-- Claim C8: calling `_delete_facet` on a present facet whose neighbour
list — after the dirty rebuild, if one was needed — is cleared (`None`) or
empty marks exactly that slot absent: the color-index grid, the facet map,
the visited cache, and every other facet slot are unchanged. -/
theorem c8_delete_facet_isolated {α : Type} [LinearOrder α]
    (colorDistances : Nat → Nat → α) (i : Nat) (st : FacetReducer.ReduceState)
    (f : Facet) (hp : st.fr.facets.getD i none = some f) (hid : f.id = i)
    (hn : (if f.neighbourFacetsIsDirty
        then FacetBuilder.build_facet_neighbour f st.fr else f).neighbourFacets = none ∨
      (if f.neighbourFacetsIsDirty
        then FacetBuilder.build_facet_neighbour f st.fr else f).neighbourFacets = some []) :
    FacetReducer.delete_facet colorDistances i st =
      { st with fr := { st.fr with facets := st.fr.facets.set i none } } := by
  rw [FacetReducer.delete_facet]
  rw [if_pos (getD_some_lt hp)]
  rw [hp]
  by_cases hd : f.neighbourFacetsIsDirty
  · rw [if_pos hd] at hn
    simp only [hd, if_true]
    have hid' : (FacetBuilder.build_facet_neighbour f st.fr).id = i := by
      rw [build_facet_neighbour_id, hid]
    rcases hn with hn | hn
    · rw [hn]
      simp only [FacetReducer.setFacet, hid', List.set_set]
    · rw [hn]
      simp only [List.isEmpty_nil, if_true, FacetReducer.setFacet, hid', List.set_set]
  · rw [if_neg hd] at hn
    simp only [hd, if_false, Bool.false_eq_true]
    rcases hn with hn | hn
    · rw [hn]
      simp only [FacetReducer.setFacet, hid]
    · rw [hn]
      simp only [List.isEmpty_nil, if_true, FacetReducer.setFacet, hid]

/-- The concrete facet of the C8 witness: the single pixel of a 1×1 image,
with a dirty (uncomputed) neighbour list. -/
def c8Facet : Facet :=
  { id := 0, color := 0, pointCount := 1, borderPoints := [⟨0, 0⟩], bbox := {},
    neighbourFacets := none, neighbourFacetsIsDirty := true }

/-- The concrete 1×1 reducer state of the C8 witness. -/
def c8State : FacetReducer.ReduceState :=
  { fr := { width := 1, height := 1, facetMap := ⟨1, 1, [0]⟩, facets := [some c8Facet] },
    img := ⟨1, 1, [0]⟩, visited := ⟨1, 1, [false]⟩ }

/-- Claim C8, witness: deleting the only facet of a 1×1 state — dirty, so
its neighbour list is rebuilt, and empty since the single pixel has no
in-bounds neighbours — tombstones the slot and changes nothing else. -/
theorem c8_delete_facet_isolated_witness :
    c8State.fr.facets.getD 0 none = some c8Facet ∧
    FacetReducer.delete_facet (fun _ _ => (0 : ℕ)) 0 c8State =
      { c8State with fr := { c8State.fr with facets := c8State.fr.facets.set 0 none } } := by
  refine ⟨rfl, ?_⟩
  exact c8_delete_facet_isolated (fun _ _ => (0 : ℕ)) 0 c8State c8Facet rfl rfl (Or.inr rfl)

/-- Auxiliary: membership in the dedup-insert fold of
`build_facet_neighbour`. -/
theorem c6_fold_mem (fr : FacetResult) (fid0 : Nat) :
    ∀ (coords : List (Nat × Nat)) (acc : List Nat) (z : Nat),
      (z ∈ coords.foldl (fun acc c =>
        let nid := fr.facetMap.get c.1 c.2
        if nid = fid0 then acc else if nid ∈ acc then acc else acc ++ [nid]) acc ↔
      z ∈ acc ∨ (z ≠ fid0 ∧ ∃ c ∈ coords, fr.facetMap.get c.1 c.2 = z)) := by
  intro coords
  induction coords with
  | nil => simp
  | cons c cs ih =>
    intro acc z
    rw [List.foldl_cons]
    simp only []
    by_cases h1 : fr.facetMap.get c.1 c.2 = fid0
    · rw [if_pos h1, ih]
      constructor
      · rintro (hz | ⟨hne, c', hc', hg⟩)
        · exact Or.inl hz
        · exact Or.inr ⟨hne, c', List.mem_cons_of_mem _ hc', hg⟩
      · rintro (hz | ⟨hne, c', hc', hg⟩)
        · exact Or.inl hz
        · rcases List.mem_cons.mp hc' with rfl | hc'
          · exact absurd (hg.symm.trans h1) hne
          · exact Or.inr ⟨hne, c', hc', hg⟩
    · rw [if_neg h1]
      by_cases h2 : fr.facetMap.get c.1 c.2 ∈ acc
      · rw [if_pos h2, ih]
        constructor
        · rintro (hz | ⟨hne, c', hc', hg⟩)
          · exact Or.inl hz
          · exact Or.inr ⟨hne, c', List.mem_cons_of_mem _ hc', hg⟩
        · rintro (hz | ⟨hne, c', hc', hg⟩)
          · exact Or.inl hz
          · rcases List.mem_cons.mp hc' with rfl | hc'
            · exact Or.inl (hg ▸ h2)
            · exact Or.inr ⟨hne, c', hc', hg⟩
      · rw [if_neg h2, ih]
        constructor
        · rintro (hz | ⟨hne, c', hc', hg⟩)
          · rcases List.mem_append.mp hz with hz | hz
            · exact Or.inl hz
            · rw [List.mem_singleton] at hz
              exact Or.inr ⟨hz ▸ h1, c, List.mem_cons_self _ _, hz.symm⟩
          · exact Or.inr ⟨hne, c', List.mem_cons_of_mem _ hc', hg⟩
        · rintro (hz | ⟨hne, c', hc', hg⟩)
          · exact Or.inl (List.mem_append_left _ hz)
          · rcases List.mem_cons.mp hc' with rfl | hc'
            · exact Or.inl (List.mem_append_right _ (by simp [hg]))
            · exact Or.inr ⟨hne, c', hc', hg⟩

/-- Auxiliary: the dedup-insert fold of `build_facet_neighbour` preserves
freedom from duplicates. -/
theorem c6_fold_nodup (fr : FacetResult) (fid0 : Nat) :
    ∀ (coords : List (Nat × Nat)) (acc : List Nat), acc.Nodup →
      (coords.foldl (fun acc c =>
        let nid := fr.facetMap.get c.1 c.2
        if nid = fid0 then acc else if nid ∈ acc then acc else acc ++ [nid]) acc).Nodup := by
  intro coords
  induction coords with
  | nil => intro acc h; simpa using h
  | cons c cs ih =>
    intro acc h
    rw [List.foldl_cons]
    simp only []
    by_cases h1 : fr.facetMap.get c.1 c.2 = fid0
    · rw [if_pos h1]; exact ih acc h
    · rw [if_neg h1]
      by_cases h2 : fr.facetMap.get c.1 c.2 ∈ acc
      · rw [if_pos h2]; exact ih acc h
      · rw [if_neg h2]
        refine ih _ ?_
        simp [List.nodup_append, h, h2]

/-- In-bounds 4-adjacency: `q` is an in-bounds 4-neighbour of `p`. -/
def adj4 (p q : Point) (w h : Nat) : Prop :=
  (q.x + 1 = p.x ∧ q.y = p.y ∨ q.x = p.x + 1 ∧ q.y = p.y ∨
   q.x = p.x ∧ q.y + 1 = p.y ∨ q.x = p.x ∧ q.y = p.y + 1) ∧ q.x < w ∧ q.y < h

instance (p q : Point) (w h : Nat) : Decidable (adj4 p q w h) := by
  unfold adj4
  infer_instance

/-- Claim C6: after `build_facet_neighbour`, the facet's neighbour list
holds exactly the distinct facet-map values found at the in-bounds
4-neighbours of its border points, its own id excluded (so a facet is never
its own neighbour), without duplicates, and the dirty flag is cleared. -/
theorem c6_build_facet_neighbour (facet : Facet) (fr : FacetResult)
    (hbp : ∀ p ∈ facet.borderPoints, p.x < fr.width ∧ p.y < fr.height) :
    ∃ ns, (FacetBuilder.build_facet_neighbour facet fr).neighbourFacets = some ns ∧
      (FacetBuilder.build_facet_neighbour facet fr).neighbourFacetsIsDirty = false ∧
      ns.Nodup ∧
      ∀ fid, (fid ∈ ns ↔ fid ≠ facet.id ∧ ∃ p ∈ facet.borderPoints, ∃ q : Point,
        adj4 p q fr.width fr.height ∧ fr.facetMap.get q.x q.y = fid) := by
  rw [FacetBuilder.build_facet_neighbour]
  by_cases hbe : facet.borderPoints.isEmpty
  · rw [if_pos hbe]
    refine ⟨[], rfl, rfl, List.nodup_nil, ?_⟩
    intro fid
    rw [List.isEmpty_iff] at hbe
    simp [hbe]
  · rw [if_neg hbe]
    refine ⟨_, rfl, rfl, c6_fold_nodup _ _ _ _ List.nodup_nil, ?_⟩
    intro fid
    rw [c6_fold_mem]
    simp only [List.not_mem_nil, false_or]
    constructor
    · rintro ⟨hne, c, hc, hget⟩
      refine ⟨hne, ?_⟩
      rcases List.mem_append.mp hc with hc' | hc'
      · rcases List.mem_append.mp hc' with hc'' | hc''
        · rcases List.mem_append.mp hc'' with hl | hr
          · obtain ⟨p, hp, hf⟩ := List.mem_filterMap.mp hl
            by_cases hx : 0 < p.x
            · rw [if_pos hx, Option.some_inj] at hf
              subst hf
              refine ⟨p, hp, ⟨p.x - 1, p.y⟩, ⟨Or.inl ⟨by show p.x - 1 + 1 = p.x; omega, rfl⟩,
                by show p.x - 1 < fr.width; have := hbp p hp; omega, (hbp p hp).2⟩, hget⟩
            · rw [if_neg hx] at hf
              exact absurd hf (by simp)
          · obtain ⟨p, hp, hf⟩ := List.mem_filterMap.mp hr
            by_cases hx : p.x + 1 < fr.width
            · rw [if_pos hx, Option.some_inj] at hf
              subst hf
              exact ⟨p, hp, ⟨p.x + 1, p.y⟩, ⟨Or.inr (Or.inl ⟨rfl, rfl⟩),
                hx, (hbp p hp).2⟩, hget⟩
            · rw [if_neg hx] at hf
              exact absurd hf (by simp)
        · obtain ⟨p, hp, hf⟩ := List.mem_filterMap.mp hc''
          by_cases hy : 0 < p.y
          · rw [if_pos hy, Option.some_inj] at hf
            subst hf
            refine ⟨p, hp, ⟨p.x, p.y - 1⟩,
              ⟨Or.inr (Or.inr (Or.inl ⟨rfl, by show p.y - 1 + 1 = p.y; omega⟩)),
              (hbp p hp).1, by show p.y - 1 < fr.height; have := hbp p hp; omega⟩, hget⟩
          · rw [if_neg hy] at hf
            exact absurd hf (by simp)
      · obtain ⟨p, hp, hf⟩ := List.mem_filterMap.mp hc'
        by_cases hy : p.y + 1 < fr.height
        · rw [if_pos hy, Option.some_inj] at hf
          subst hf
          exact ⟨p, hp, ⟨p.x, p.y + 1⟩, ⟨Or.inr (Or.inr (Or.inr ⟨rfl, rfl⟩)),
            (hbp p hp).1, hy⟩, hget⟩
        · rw [if_neg hy] at hf
          exact absurd hf (by simp)
    · rintro ⟨hne, p, hp, q, ⟨hadj, hqx, hqy⟩, hget⟩
      refine ⟨hne, (q.x, q.y), ?_, hget⟩
      rcases hadj with ⟨h1, h2⟩ | ⟨h1, h2⟩ | ⟨h1, h2⟩ | ⟨h1, h2⟩
      · refine List.mem_append_left _ (List.mem_append_left _ (List.mem_append_left _ ?_))
        rw [List.mem_filterMap]
        refine ⟨p, hp, ?_⟩
        rw [if_pos (by omega)]
        simp only [Option.some_inj, Prod.mk.injEq]
        constructor <;> omega
      · refine List.mem_append_left _ (List.mem_append_left _ (List.mem_append_right _ ?_))
        rw [List.mem_filterMap]
        refine ⟨p, hp, ?_⟩
        rw [if_pos (by omega)]
        simp only [Option.some_inj, Prod.mk.injEq]
        constructor <;> omega
      · refine List.mem_append_left _ (List.mem_append_right _ ?_)
        rw [List.mem_filterMap]
        refine ⟨p, hp, ?_⟩
        rw [if_pos (by omega)]
        simp only [Option.some_inj, Prod.mk.injEq]
        constructor <;> omega
      · refine List.mem_append_right _ ?_
        rw [List.mem_filterMap]
        refine ⟨p, hp, ?_⟩
        rw [if_pos (by omega)]
        simp only [Option.some_inj, Prod.mk.injEq]
        constructor <;> omega

/-- Claim C6, witness: a 2×1 image split into facets 0 and 1; the border
point `(0,0)` of facet 0 has the single in-bounds neighbour `(1,0)` carrying
facet 1. -/
theorem c6_build_facet_neighbour_witness :
    (∀ p ∈ ([⟨0, 0⟩] : List Point), p.x < 2 ∧ p.y < 1) ∧
    ∃ ns, (FacetBuilder.build_facet_neighbour
        { id := 0, color := 0, pointCount := 1, borderPoints := [⟨0, 0⟩], bbox := {},
          neighbourFacets := none, neighbourFacetsIsDirty := true }
        { width := 2, height := 1, facetMap := ⟨2, 1, [0, 1]⟩,
          facets := [] }).neighbourFacets = some ns ∧
      (FacetBuilder.build_facet_neighbour
        { id := 0, color := 0, pointCount := 1, borderPoints := [⟨0, 0⟩], bbox := {},
          neighbourFacets := none, neighbourFacetsIsDirty := true }
        { width := 2, height := 1, facetMap := ⟨2, 1, [0, 1]⟩,
          facets := [] }).neighbourFacetsIsDirty = false ∧
      ns.Nodup ∧ (1 ∈ ns ↔ (1 : Nat) ≠ 0 ∧ ∃ p ∈ ([⟨0, 0⟩] : List Point), ∃ q : Point,
        adj4 p q 2 1 ∧ (Grid.get ⟨2, 1, [0, 1]⟩ q.x q.y : Nat) = 1) := by
  refine ⟨by decide, ?_⟩
  obtain ⟨ns, h1, h2, h3, h4⟩ := c6_build_facet_neighbour
    { id := 0, color := 0, pointCount := 1, borderPoints := [⟨0, 0⟩], bbox := {},
      neighbourFacets := none, neighbourFacetsIsDirty := true }
    { width := 2, height := 1, facetMap := ⟨2, 1, [0, 1]⟩, facets := [] }
    (by decide)
  exact ⟨ns, h1, h2, h3, h4 1⟩

/-- Claim C9: averaging a singleton list returns a vector with the same
values and the same weight, whenever the weight is positive. -/
theorem c9_average_singleton (v : Vec) (hw : 0 < v.weight) :
    ∃ u, Vec.average [v] = some u ∧ u.values = v.values ∧ u.weight = v.weight := by
  have hws : ¬ (([v].map Vec.weight).sum = 0 ∧ 0 < v.values.length) :=
    fun h => ne_of_gt hw (by simpa using h.1)
  rw [Vec.average, if_neg (by simp), if_neg hws]
  refine ⟨_, rfl, ?_, by simp⟩
  refine List.ext_getElem (by simp) ?_
  intro i h1 h2
  rw [List.getElem_map, List.getElem_map, List.getElem_range]
  have hv : (v.values.getD i 0) = v.values[i] := by
    rw [List.getD_eq_getElem?_getD, List.getElem?_eq_getElem h2]
    rfl
  simp only [List.map_cons, List.map_nil, List.sum_cons, List.sum_nil, add_zero, hv]
  have : v.weight ≠ 0 := ne_of_gt hw
  field_simp

/-- Claim C9, witness: the theorem applied to a concrete weighted vector. -/
theorem c9_average_singleton_witness :
    (0 : ℚ) < (3 : ℚ) ∧
      ∃ u, Vec.average [{ values := [1, 2], weight := 3, tag := none }] = some u ∧
        u.values = [1, 2] ∧ u.weight = 3 := by
  refine ⟨by norm_num, ?_⟩
  exact c9_average_singleton { values := [1, 2], weight := 3, tag := none } (by norm_num)

/-- A facet about to be removed in the C2 counterexample: color index 0,
clean neighbour list `[1, 2]`. -/
def c2Rm : Facet :=
  { id := 0, color := 0, pointCount := 3, borderPoints := [⟨1, 0⟩, ⟨3, 0⟩],
    bbox := { minX := 1, minY := 0, maxX := 3, maxY := 0 },
    neighbourFacets := some [1, 2], neighbourFacetsIsDirty := false }

/-- C2 counterexample neighbour with the smaller color distance and the
smaller id, whose single border point is at Manhattan distance 2 from the
pixel `(2, 0)`. -/
def c2NA : Facet :=
  { id := 1, color := 1, pointCount := 1, borderPoints := [⟨0, 0⟩],
    bbox := { minX := 0, minY := 0, maxX := 0, maxY := 0 },
    neighbourFacets := none, neighbourFacetsIsDirty := false }

/-- C2 counterexample neighbour with the larger color distance and the
larger id, also at Manhattan distance 2 from the pixel `(2, 0)`. -/
def c2NB : Facet :=
  { id := 2, color := 2, pointCount := 1, borderPoints := [⟨4, 0⟩],
    bbox := { minX := 4, minY := 0, maxX := 4, maxY := 0 },
    neighbourFacets := none, neighbourFacetsIsDirty := false }

/-- The 5×1 facet structure of the C2 counterexample. -/
def c2Fr : FacetResult :=
  { width := 5, height := 1, facetMap := ⟨5, 1, [1, 0, 0, 0, 2]⟩,
    facets := [some c2Rm, some c2NA, some c2NB] }

/-- The palette of the C2 counterexample: color distances
`‖(0,0,0)-(3,4,0)‖ = 5` and `‖(0,0,0)-(6,8,0)‖ = 10`. -/
def c2Palette : List (Nat × Nat × Nat) := [(0, 0, 0), (3, 4, 0), (6, 8, 0)]

/-- Claim C2, counterexample to the tie-breaks: both neighbours of
`c2Rm` are at minimal Manhattan border distance 2 from pixel `(2, 0)`;
neighbour 1 has the strictly smaller Euclidean color distance to the
removed facet's color and the smaller id, yet
`_get_closest_neighbour_for_pixel` returns neighbour 2.  (Taking a new
strict minimum resets `min_color_distance` to infinity without recording
the new closest facet's own color distance, so the first facet of a tie
never gets to compete on color.) -/
theorem c2_closest_neighbour_tie_break_counterexample :
    FacetReducer.borderDistance c2NA 2 0 = FacetReducer.borderDistance c2NB 2 0 ∧
    FacetReducer.build_color_distance_matrix c2Palette c2Rm.color c2NA.color <
      FacetReducer.build_color_distance_matrix c2Palette c2Rm.color c2NB.color ∧
    c2NA.id < c2NB.id ∧
    FacetReducer.get_closest_neighbour_for_pixel c2Rm c2Fr 2 0
      (FacetReducer.build_color_distance_matrix c2Palette) = some c2NB.id := by
  refine ⟨by decide, ?_, by decide, ?_⟩
  · have h5 : FacetReducer.build_color_distance_matrix c2Palette c2Rm.color c2NA.color
        = Real.sqrt 25 := by
      norm_num [FacetReducer.build_color_distance_matrix, FacetReducer.colorDistance,
        c2Palette, c2Rm, c2NA, List.getD]
    have h10 : FacetReducer.build_color_distance_matrix c2Palette c2Rm.color c2NB.color
        = Real.sqrt 100 := by
      norm_num [FacetReducer.build_color_distance_matrix, FacetReducer.colorDistance,
        c2Palette, c2Rm, c2NB, List.getD]
    rw [h5, h10]
    exact Real.sqrt_lt_sqrt (by norm_num) (by norm_num)
  · rw [FacetReducer.get_closest_neighbour_for_pixel]
    norm_num [c2Rm, c2Fr, c2NA, c2NB, FacetReducer.closestLoop, FacetReducer.manhattan,
      List.getD, List.min?, WithTop.coe_lt_top]

/-- Claim C2 (amended): with a clean, non-empty neighbour list,
`_get_closest_neighbour_for_pixel` returns a present neighbour with border
points whose minimal Manhattan border distance to `(x, y)` is smallest among
all such neighbours — provided every candidate's border points lie inside
its bbox (so the bbox prune is sound), every candidate's distance is at
least 1 (so the distance-1 early return is sound), and some candidate is
closer than the `10 ** 9` sentinel.  The claim's color-distance and
lowest-id tie-breaks are NOT satisfied (see the counterexample): a strict
minimum resets the color tie-break to infinity, so among tied neighbours
the first candidate's color distance is never compared. -/
theorem c2_closest_neighbour_amended {α : Type} [LinearOrder α]
    (facetToRemove : Facet) (fr : FacetResult) (x y : Nat)
    (colorDistances : Nat → Nat → α) (ns : List Nat)
    (hclean : facetToRemove.neighbourFacetsIsDirty = false)
    (hns : facetToRemove.neighbourFacets = some ns)
    (hbbox : ∀ n ∈ ns, ∀ g : Facet, fr.facets.getD n none = some g →
      ∀ p ∈ g.borderPoints,
        g.bbox.minX ≤ (p.x : Int) ∧ (p.x : Int) ≤ g.bbox.maxX ∧
        g.bbox.minY ≤ (p.y : Int) ∧ (p.y : Int) ≤ g.bbox.maxY)
    (hpos : ∀ n ∈ ns, ∀ g : Facet, fr.facets.getD n none = some g →
      ¬ g.borderPoints.isEmpty = true → 1 ≤ FacetReducer.borderDistance g x y)
    (hlow : ∃ n ∈ ns, ∃ g : Facet, fr.facets.getD n none = some g ∧
      ¬ g.borderPoints.isEmpty = true ∧ FacetReducer.borderDistance g x y < 10 ^ 9) :
    ∃ n g, FacetReducer.get_closest_neighbour_for_pixel facetToRemove fr x y
        colorDistances = some n ∧
      n ∈ ns ∧ fr.facets.getD n none = some g ∧ ¬ g.borderPoints.isEmpty = true ∧
      ∀ m ∈ ns, ∀ g' : Facet, fr.facets.getD m none = some g' →
        ¬ g'.borderPoints.isEmpty = true →
        FacetReducer.borderDistance g x y ≤ FacetReducer.borderDistance g' x y := by
  obtain ⟨n0, hn0, g0, hg0, hg0ne, hg0low⟩ := hlow
  have hnsne : ns ≠ [] := by
    intro h
    subst h
    exact absurd hn0 (List.not_mem_nil n0)
  obtain ⟨n, g, hloop, hnm, hg, hgne, _, hall⟩ :=
    FacetReducer.closestLoop_min fr.facets x y (colorDistances facetToRemove.color) ns
      hbbox hpos ns none (10 ^ 9) ⊤ (fun _ h => h) (le_refl _) (fun _ => rfl)
      (fun c hc => Option.noConfusion hc)
      (Or.inl ⟨n0, hn0, g0, hg0, hg0ne, hg0low⟩)
  refine ⟨n, g, ?_, hnm, hg, hgne, hall⟩
  rw [FacetReducer.get_closest_neighbour_for_pixel]
  simp only [hclean, Bool.false_eq_true, if_false, hns]
  rw [if_neg (by simp only [List.isEmpty_iff]; exact hnsne)]
  exact hloop

/-- The removed facet of the C2 witness: clean neighbour list `[1]`. -/
def c2WFacet : Facet :=
  { id := 0, color := 0, pointCount := 2, borderPoints := [⟨1, 0⟩, ⟨2, 0⟩],
    bbox := { minX := 1, minY := 0, maxX := 2, maxY := 0 },
    neighbourFacets := some [1], neighbourFacetsIsDirty := false }

/-- The sole neighbour of the C2 witness, border point `(0, 0)`. -/
def c2WNeigh : Facet :=
  { id := 1, color := 1, pointCount := 1, borderPoints := [⟨0, 0⟩],
    bbox := { minX := 0, minY := 0, maxX := 0, maxY := 0 },
    neighbourFacets := none, neighbourFacetsIsDirty := false }

/-- The 3×1 facet structure of the C2 witness. -/
def c2WFr : FacetResult :=
  { width := 3, height := 1, facetMap := ⟨3, 1, [1, 0, 0]⟩,
    facets := [some c2WFacet, some c2WNeigh] }

theorem c2_closest_neighbour_amended_witness :
    ∃ n g, FacetReducer.get_closest_neighbour_for_pixel c2WFacet c2WFr 2 0
        (fun _ _ => (0 : Nat)) = some n ∧
      n ∈ [1] ∧ c2WFr.facets.getD n none = some g ∧ ¬ g.borderPoints.isEmpty = true ∧
      ∀ m ∈ [1], ∀ g' : Facet, c2WFr.facets.getD m none = some g' →
        ¬ g'.borderPoints.isEmpty = true →
        FacetReducer.borderDistance g 2 0 ≤ FacetReducer.borderDistance g' 2 0 :=
  c2_closest_neighbour_amended c2WFacet c2WFr 2 0 (fun _ _ => (0 : Nat)) [1] rfl rfl
    (by
      intro n hn g hg p hp
      have hn1 : n = 1 := by simpa using hn
      subst hn1
      have h1 : c2WFr.facets.getD 1 none = some c2WNeigh := rfl
      rw [h1] at hg
      have hgn := Option.some_inj.mp hg
      subst hgn
      have hp1 : p = ⟨0, 0⟩ := by simpa [c2WNeigh] using hp
      subst hp1
      decide)
    (by
      intro n hn g hg hgne
      have hn1 : n = 1 := by simpa using hn
      subst hn1
      have h1 : c2WFr.facets.getD 1 none = some c2WNeigh := rfl
      rw [h1] at hg
      have hgn := Option.some_inj.mp hg
      subst hgn
      decide)
    ⟨1, by decide, c2WNeigh, rfl, by decide, by decide⟩

/-- Any predicate on the closure state preserved by the callback on every
in-bounds included pixel is an invariant of the stack callback fill loop. -/
theorem fillCBLoop_invariant {σ : Type} (w h : Nat) (inc : σ → Nat → Nat → Bool)
    (onFill : σ → Nat → Nat → σ) (Inv : σ → Prop)
    (hstep : ∀ s px py, px < w → py < h → inc s px py = true → Inv s →
      Inv (onFill s px py)) :
    ∀ stack visited s count, Inv s →
      Inv (FloodFillStack.fillCBLoop w h inc onFill stack visited s count).1 := by
  intro stack visited s count
  induction stack, visited, s, count
    using FloodFillStack.fillCBLoop.induct w h inc onFill with
  | case1 s count =>
    intro hs
    rw [FloodFillStack.fillCBLoop]
    exact hs
  | case2 p rest visited s count hmem ih =>
    intro hs
    rw [FloodFillStack.fillCBLoop]
    simp only [if_pos hmem]
    exact ih hs
  | case3 p rest visited s count hmem hb ih =>
    intro hs
    rw [FloodFillStack.fillCBLoop]
    rw [if_neg hmem, dif_pos hb]
    exact ih hs
  | case4 p rest visited s count hmem hb hinc ih =>
    intro hs
    rw [FloodFillStack.fillCBLoop]
    rw [if_neg hmem, dif_neg hb, if_pos hinc]
    exact ih hs
  | case5 p rest visited s count hmem hb hinc ih =>
    intro hs
    rw [FloodFillStack.fillCBLoop]
    rw [if_neg hmem, dif_neg hb, if_neg hinc]
    push_neg at hb
    exact ih (hstep s p.x p.y hb.1 hb.2 (not_not.mp hinc) hs)

/-- A predicate preserved by every step of a fold holds at the end. -/
theorem foldl_invariant {β : Type} (f : β → Nat → β) (P : β → Prop) :
    ∀ (l : List Nat) (b : β), (∀ b' a, a ∈ l → P b' → P (f b' a)) → P b →
      P (l.foldl f b) := by
  intro l
  induction l with
  | nil => intro b _ hb; exact hb
  | cons hd tl ih =>
    intro b hstep hb
    exact ih (f b hd) (fun b' a ha => hstep b' a (List.mem_cons_of_mem hd ha))
      (hstep b hd (List.mem_cons_self hd tl) hb)

/-- A predicate established by the fold step at some member of the list and
preserved afterwards (given a preserved side invariant) holds at the end. -/
theorem foldl_establishes {β : Type} (f : β → Nat → β) (P Q : β → Prop) :
    ∀ (l : List Nat) (a : Nat), a ∈ l →
      (∀ b' a', a' ∈ l → P b' → P (f b' a')) →
      (∀ b' a', a' ∈ l → P b' → Q b' → Q (f b' a')) →
      (∀ b', P b' → Q (f b' a)) →
      ∀ b, P b → Q (l.foldl f b) ∧ P (l.foldl f b) := by
  intro l
  induction l with
  | nil => intro a ha; exact absurd ha (List.not_mem_nil a)
  | cons hd tl ih =>
    intro a ha hP hQ hest b hb
    rcases List.mem_cons.mp ha with rfl | hatl
    · have h1 : Q (f b a) ∧ P (f b a) :=
        ⟨hest b hb, hP b a (List.mem_cons_self a tl) hb⟩
      have h2 := foldl_invariant f (fun b' => Q b' ∧ P b') tl (f b a)
        (fun b' a' ha' hqp => ⟨hQ b' a' (List.mem_cons_of_mem a ha') hqp.2 hqp.1,
          hP b' a' (List.mem_cons_of_mem a ha') hqp.2⟩) h1
      exact ⟨h2.1, h2.2⟩
    · exact ih a hatl
        (fun b' a' ha' => hP b' a' (List.mem_cons_of_mem hd ha'))
        (fun b' a' ha' => hQ b' a' (List.mem_cons_of_mem hd ha'))
        hest (f b hd) (hP b hd (List.mem_cons_self hd tl) hb)

/-- A fresh constant grid of the default element reads the default
everywhere. -/
theorem Grid.get_const_default {α : Type} [Inhabited α] (w h x y : Nat) :
    (Grid.const w h (default : α)).get x y = default := by
  simp only [Grid.get, Grid.const, List.getD, List.get?_eq_getElem?,
    List.getElem?_replicate]
  split <;> simp

/-- `(l ++ l').getD` reads the left part below its length. -/
theorem getD_append_lt {α : Type} (l l' : List α) (d : α) (n : Nat)
    (h : n < l.length) : (l ++ l').getD n d = l.getD n d := by
  simp [List.getD, List.getElem?_append_left h]

/-- `getD` at the old length of a one-element append reads the new element. -/
theorem getD_append_length {α : Type} (l : List α) (a d : α) :
    (l ++ [a]).getD l.length d = a := by
  simp [List.getD, List.getElem?_append_right (le_refl l.length)]

/-- A fresh all-`false` visited buffer reads `false` everywhere. -/
theorem Grid.get_const_false (w h x y : Nat) :
    (Grid.const w h false).get x y = false :=
  Grid.get_const_default w h x y

/-- Invariant of `build_facet`'s closure state relative to the initial
visited buffer `v0` and facet map `m0` on a `width × height` image: shapes
are preserved, the accumulated facet keeps its id and color, previously
visited pixels stay visited with untouched facet-map entries, pixels not yet
visited keep their facet-map entries, and newly visited pixels carry the new
facet index and match the facet color. -/
def BuildInv (img : Grid Nat) (facetIndex facetColorIndex width height : Nat)
    (v0 : Grid Bool) (m0 : Grid Nat) (s : FacetBuilder.BuildState) : Prop :=
  s.visited.width = width ∧ s.visited.height = height ∧
  s.visited.data.length = width * height ∧
  s.facetMap.width = width ∧ s.facetMap.height = height ∧
  s.facetMap.data.length = width * height ∧
  s.facet.id = facetIndex ∧ s.facet.color = facetColorIndex ∧
  ∀ px py, px < width → py < height →
    (v0.get px py = true → s.visited.get px py = true ∧
      s.facetMap.get px py = m0.get px py) ∧
    (s.visited.get px py = false → s.facetMap.get px py = m0.get px py) ∧
    (v0.get px py = false → s.visited.get px py = true →
      s.facetMap.get px py = facetIndex ∧ img.get px py = facetColorIndex)

/-- `on_fill` of `build_facet` preserves `BuildInv` at every in-bounds pixel
passing `should_include`. -/
theorem buildOnFill_inv (img : Grid Nat) (facetIndex facetColorIndex width height : Nat)
    (v0 : Grid Bool) (m0 : Grid Nat) (s : FacetBuilder.BuildState) (px py : Nat)
    (hpx : px < width) (hpy : py < height)
    (hinc : FacetBuilder.buildInclude img facetColorIndex s px py = true)
    (hs : BuildInv img facetIndex facetColorIndex width height v0 m0 s) :
    BuildInv img facetIndex facetColorIndex width height v0 m0
      (FacetBuilder.buildOnFill img facetIndex facetColorIndex s px py) := by
  obtain ⟨hvw, hvh, hvl, hmw, hmh, hml, hid, hcol, hpix⟩ := hs
  have hinc' : s.visited.get px py = false ∧ img.get px py = facetColorIndex := by
    simpa [FacetBuilder.buildInclude, Bool.and_eq_true, Bool.not_eq_true'] using hinc
  have hvis : (FacetBuilder.buildOnFill img facetIndex facetColorIndex s px py).visited
      = s.visited.set px py true := rfl
  have hmap : (FacetBuilder.buildOnFill img facetIndex facetColorIndex s px py).facetMap
      = s.facetMap.set px py facetIndex := rfl
  refine ⟨?_, ?_, ?_, ?_, ?_, ?_, hid, hcol, ?_⟩
  · rw [hvis, Grid.set_width]; exact hvw
  · rw [hvis, Grid.set_height]; exact hvh
  · rw [hvis, Grid.set_data_length]; exact hvl
  · rw [hmap, Grid.set_width]; exact hmw
  · rw [hmap, Grid.set_height]; exact hmh
  · rw [hmap, Grid.set_data_length]; exact hml
  · intro x y hx hy
    rw [hvis, hmap]
    by_cases hxy : x = px ∧ y = py
    · obtain ⟨h1, h2⟩ := hxy
      subst h1
      subst h2
      have hsv : (s.visited.set x y true).get x y = true :=
        Grid.get_set_self _ _ _ _ (by rw [hvl, hvw]; exact Grid.key_lt hx hy)
      have hsm : (s.facetMap.set x y facetIndex).get x y = facetIndex :=
        Grid.get_set_self _ _ _ _ (by rw [hml, hmw]; exact Grid.key_lt hx hy)
      refine ⟨?_, ?_, ?_⟩
      · intro hv0
        have hw := ((hpix x y hx hy).1 hv0).1
        rw [hinc'.1] at hw
        cases hw
      · intro hfalse
        rw [hsv] at hfalse
        cases hfalse
      · intro _ _
        exact ⟨hsm, hinc'.2⟩
    · have hkne : y * width + x ≠ py * width + px :=
        fun hk => hxy (Grid.key_inj hx hpx hk)
      have hsv : (s.visited.set px py true).get x y = s.visited.get x y :=
        Grid.get_set_ne _ _ _ _ _ _ (by rw [hvw]; exact hkne)
      have hsm : (s.facetMap.set px py facetIndex).get x y = s.facetMap.get x y :=
        Grid.get_set_ne _ _ _ _ _ _ (by rw [hmw]; exact hkne)
      rw [hsv, hsm]
      exact hpix x y hx hy

/-- `build_facet` seeded at an unvisited in-bounds pixel whose color index is
`colorIndex`: the returned facet carries the requested id and color, every
shape and the facet list are preserved, previously visited pixels stay
visited with untouched facet-map entries, pixels left unvisited keep their
entries, newly visited pixels get `facetIndex` and match the color, and the
seed ends up visited. -/
theorem build_facet_spec (facetIndex colorIndex x y width height : Nat)
    (visited : Grid Bool) (img : Grid Nat) (fr : FacetResult)
    (hfw : fr.width = width) (hfh : fr.height = height)
    (hvw : visited.width = width) (hvh : visited.height = height)
    (hvl : visited.data.length = width * height)
    (hmw : fr.facetMap.width = width) (hmh : fr.facetMap.height = height)
    (hml : fr.facetMap.data.length = width * height)
    (hx : x < width) (hy : y < height)
    (hseed : visited.get x y = false) (hcol : img.get x y = colorIndex) :
    let r := FacetBuilder.build_facet facetIndex colorIndex x y visited img fr
    r.1.id = facetIndex ∧ r.1.color = colorIndex ∧
    r.2.2.width = width ∧ r.2.2.height = height ∧ r.2.2.facets = fr.facets ∧
    r.2.1.width = width ∧ r.2.1.height = height ∧
    r.2.1.data.length = width * height ∧
    r.2.2.facetMap.width = width ∧ r.2.2.facetMap.height = height ∧
    r.2.2.facetMap.data.length = width * height ∧
    (∀ px py, px < width → py < height →
      (visited.get px py = true → r.2.1.get px py = true ∧
        r.2.2.facetMap.get px py = fr.facetMap.get px py) ∧
      (r.2.1.get px py = false →
        r.2.2.facetMap.get px py = fr.facetMap.get px py) ∧
      (visited.get px py = false → r.2.1.get px py = true →
        r.2.2.facetMap.get px py = facetIndex ∧ img.get px py = colorIndex)) ∧
    r.2.1.get x y = true := by
  intro r
  have hInv0 : BuildInv img facetIndex colorIndex width height visited fr.facetMap
      ⟨visited, fr.facetMap,
        { id := facetIndex, color := colorIndex, pointCount := 0, borderPoints := [],
          bbox := {}, neighbourFacets := none, neighbourFacetsIsDirty := true }⟩ := by
    refine ⟨hvw, hvh, hvl, hmw, hmh, hml, rfl, rfl, ?_⟩
    intro px py hpx hpy
    refine ⟨fun hv => ⟨hv, rfl⟩, fun _ => rfl, fun hf hv => ?_⟩
    exact absurd hv (by simp [hf])
  have hInvF : BuildInv img facetIndex colorIndex width height visited fr.facetMap
      (FloodFillStack.fillCBLoop fr.width fr.height
        (FacetBuilder.buildInclude img colorIndex)
        (FacetBuilder.buildOnFill img facetIndex colorIndex)
        [⟨x, y⟩] ∅
        ⟨visited, fr.facetMap,
          { id := facetIndex, color := colorIndex, pointCount := 0, borderPoints := [],
            bbox := {}, neighbourFacets := none, neighbourFacetsIsDirty := true }⟩
        0).1 :=
    fillCBLoop_invariant fr.width fr.height _ _ _
      (fun s px py hpx hpy hinc hs =>
        buildOnFill_inv img facetIndex colorIndex width height visited fr.facetMap
          s px py (hfw ▸ hpx) (hfh ▸ hpy) hinc hs)
      _ _ _ _ hInv0
  have hxw : x < fr.width := by rw [hfw]; exact hx
  have hyh : y < fr.height := by rw [hfh]; exact hy
  have hinc0 : FacetBuilder.buildInclude img colorIndex
      ⟨visited, fr.facetMap,
        { id := facetIndex, color := colorIndex, pointCount := 0, borderPoints := [],
          bbox := {}, neighbourFacets := none, neighbourFacetsIsDirty := true }⟩
      x y = true := by
    simp [FacetBuilder.buildInclude, hseed, hcol]
  have hseedvis : (FloodFillStack.fillCBLoop fr.width fr.height
      (FacetBuilder.buildInclude img colorIndex)
      (FacetBuilder.buildOnFill img facetIndex colorIndex)
      [⟨x, y⟩] ∅
      ⟨visited, fr.facetMap,
        { id := facetIndex, color := colorIndex, pointCount := 0, borderPoints := [],
          bbox := {}, neighbourFacets := none, neighbourFacetsIsDirty := true }⟩
      0).1.visited.get x y = true := by
    rw [FloodFillStack.fillCBLoop]
    rw [if_neg (Finset.not_mem_empty _), dif_neg (not_not_intro ⟨hxw, hyh⟩),
      if_neg (not_not_intro hinc0)]
    refine (fillCBLoop_invariant fr.width fr.height _ _
      (fun s : FacetBuilder.BuildState => s.visited.width = width ∧
        s.visited.data.length = width * height ∧ s.visited.get x y = true)
      (fun s px py hpx hpy _ hs => ?_) _ _ _ _ ?_).2.2
    · have hvis : (FacetBuilder.buildOnFill img facetIndex colorIndex s px py).visited
          = s.visited.set px py true := rfl
      refine ⟨by rw [hvis, Grid.set_width]; exact hs.1,
        by rw [hvis, Grid.set_data_length]; exact hs.2.1, ?_⟩
      rw [hvis]
      by_cases hxy : x = px ∧ y = py
      · obtain ⟨h1, h2⟩ := hxy
        subst h1
        subst h2
        exact Grid.get_set_self _ _ _ _
          (by rw [hs.2.1, hs.1]; exact Grid.key_lt hx hy)
      · have hkne : y * width + x ≠ py * width + px :=
          fun hk => hxy (Grid.key_inj hx (hfw ▸ hpx) hk)
        rw [Grid.get_set_ne _ _ _ _ _ _ (by rw [hs.1]; exact hkne)]
        exact hs.2.2
    · refine ⟨?_, ?_, ?_⟩
      · show (visited.set x y true).width = width
        rw [Grid.set_width]
        exact hvw
      · show (visited.set x y true).data.length = width * height
        rw [Grid.set_data_length]
        exact hvl
      · show (visited.set x y true).get x y = true
        exact Grid.get_set_self _ _ _ _ (by rw [hvl, hvw]; exact Grid.key_lt hx hy)
  obtain ⟨h1, h2, h3, h4, h5, h6, h7, h8, h9⟩ := hInvF
  exact ⟨h7, h8, hfw, hfh, rfl, h1, h2, h3, h4, h5, h6, h9, hseedvis⟩

/-- The invariant of the `build_all_facets` double loop: shapes of the
visited buffer and facet map, and every visited pixel's facet-map entry is a
valid index of a facet carrying that index as its id and the pixel's color
index as its color. -/
def GoodState (img : Grid Nat) (width height : Nat)
    (st : Grid Bool × FacetResult × List Facet) : Prop :=
  st.1.width = width ∧ st.1.height = height ∧ st.1.data.length = width * height ∧
  st.2.1.width = width ∧ st.2.1.height = height ∧
  st.2.1.facetMap.width = width ∧ st.2.1.facetMap.height = height ∧
  st.2.1.facetMap.data.length = width * height ∧
  ∀ x y, x < width → y < height → st.1.get x y = true →
    st.2.1.facetMap.get x y < st.2.2.length ∧
    (st.2.2.getD (st.2.1.facetMap.get x y) default).id = st.2.1.facetMap.get x y ∧
    (st.2.2.getD (st.2.1.facetMap.get x y) default).color = img.get x y

/-- One `build_all_facets` step preserves `GoodState`, leaves its own pixel
visited, and keeps every previously visited pixel visited. -/
theorem buildStep_spec (img : Grid Nat) (width height j i : Nat)
    (hj : j < height) (hi : i < width)
    (st : Grid Bool × FacetResult × List Facet)
    (hst : GoodState img width height st) :
    GoodState img width height (FacetBuilder.buildStep img st j i) ∧
    (FacetBuilder.buildStep img st j i).1.get i j = true ∧
    ∀ x y, x < width → y < height → st.1.get x y = true →
      (FacetBuilder.buildStep img st j i).1.get x y = true := by
  obtain ⟨hvw, hvh, hvl, hfw, hfh, hmw, hmh, hml, hpix⟩ := hst
  by_cases hv : st.1.get i j = true
  · rw [FacetBuilder.buildStep, if_pos hv]
    exact ⟨⟨hvw, hvh, hvl, hfw, hfh, hmw, hmh, hml, hpix⟩, hv, fun x y _ _ h => h⟩
  · have hv' : st.1.get i j = false := by
      cases hb : st.1.get i j
      · rfl
      · exact absurd hb hv
    rw [FacetBuilder.buildStep, if_neg hv]
    simp only []
    have hspec := build_facet_spec st.2.2.length (img.get i j) i j width height
      st.1 img st.2.1 hfw hfh hvw hvh hvl hmw hmh hml hi hj hv' rfl
    obtain ⟨hsid, hscol, hsw, hsh, hsfacets, hsvw, hsvh, hsvl, hsmw, hsmh, hsml,
      hspix, hsseed⟩ := hspec
    refine ⟨⟨hsvw, hsvh, hsvl, hsw, hsh, hsmw, hsmh, hsml, ?_⟩, hsseed,
      fun x y hx hy hold => ((hspix x y hx hy).1 hold).1⟩
    intro x y hx hy hvis
    by_cases hold : st.1.get x y = true
    · have hmapun := ((hspix x y hx hy).1 hold).2
      have hfacts := hpix x y hx hy hold
      rw [hmapun]
      refine ⟨?_, ?_, ?_⟩
      · rw [List.length_append]
        omega
      · rw [getD_append_lt _ _ _ _ hfacts.1]
        exact hfacts.2.1
      · rw [getD_append_lt _ _ _ _ hfacts.1]
        exact hfacts.2.2
    · have hnew : st.1.get x y = false := by
        cases hb : st.1.get x y
        · rfl
        · exact absurd hb hold
      have hcnew := (hspix x y hx hy).2.2 hnew hvis
      rw [hcnew.1]
      refine ⟨?_, ?_, ?_⟩
      · rw [List.length_append]
        simp
      · rw [getD_append_length]
        exact hsid
      · rw [getD_append_length]
        rw [hscol, hcnew.2]

/-- Claim C3: after `build_all_facets` on a `width × height` color-index
grid (with a result container of matching shapes), every pixel's facet-map
entry is a valid index into the returned facet list, the facet at that index
has id equal to the index, and its color equals the pixel's color index. -/
theorem c3_build_all_facets (img : Grid Nat) (width height : Nat) (fr : FacetResult)
    (hfw : fr.width = width) (hfh : fr.height = height)
    (hmw : fr.facetMap.width = width) (hmh : fr.facetMap.height = height)
    (hml : fr.facetMap.data.length = width * height)
    (x y : Nat) (hx : x < width) (hy : y < height) :
    (FacetBuilder.build_all_facets img width height fr).1.facetMap.get x y
        < (FacetBuilder.build_all_facets img width height fr).2.length ∧
    ((FacetBuilder.build_all_facets img width height fr).2.getD
        ((FacetBuilder.build_all_facets img width height fr).1.facetMap.get x y)
        default).id
      = (FacetBuilder.build_all_facets img width height fr).1.facetMap.get x y ∧
    ((FacetBuilder.build_all_facets img width height fr).2.getD
        ((FacetBuilder.build_all_facets img width height fr).1.facetMap.get x y)
        default).color
      = img.get x y := by
  have hinit : GoodState img width height
      (Grid.const width height false, fr, ([] : List Facet)) := by
    refine ⟨rfl, rfl, by simp [Grid.const], hfw, hfh, hmw, hmh, hml, ?_⟩
    intro px py _ _ hvis
    rw [Grid.get_const_false] at hvis
    cases hvis
  have hfinal := foldl_establishes
    (fun st j => (List.range width).foldl
      (fun st i => FacetBuilder.buildStep img st j i) st)
    (GoodState img width height)
    (fun st => st.1.get x y = true)
    (List.range height) y (List.mem_range.mpr hy)
    (fun b j hj hb => foldl_invariant _ (GoodState img width height)
      (List.range width) b
      (fun b' a ha hb' => (buildStep_spec img width height j a
        (List.mem_range.mp hj) (List.mem_range.mp ha) b' hb').1)
      hb)
    (fun b j hj hbP hbQ =>
      (foldl_invariant _
        (fun st => GoodState img width height st ∧ st.1.get x y = true)
        (List.range width) b
        (fun b' a ha hb' => ⟨(buildStep_spec img width height j a
            (List.mem_range.mp hj) (List.mem_range.mp ha) b' hb'.1).1,
          (buildStep_spec img width height j a
            (List.mem_range.mp hj) (List.mem_range.mp ha) b' hb'.1).2.2
            x y hx hy hb'.2⟩)
        ⟨hbP, hbQ⟩).2)
    (fun b hb =>
      (foldl_establishes
        (fun st i => FacetBuilder.buildStep img st y i)
        (GoodState img width height)
        (fun st => st.1.get x y = true)
        (List.range width) x (List.mem_range.mpr hx)
        (fun b' a ha hb' => (buildStep_spec img width height y a hy
          (List.mem_range.mp ha) b' hb').1)
        (fun b' a ha hbP hbQ => (buildStep_spec img width height y a hy
          (List.mem_range.mp ha) b' hbP).2.2 x y hx hy hbQ)
        (fun b' hb' => (buildStep_spec img width height y x hy hx b' hb').2.1)
        b hb).1)
    (Grid.const width height false, fr, ([] : List Facet)) hinit
  exact hfinal.2.2.2.2.2.2.2.2.2 x y hx hy hfinal.1

/-- A 2×1 two-color image for the C3 witness. -/
def c3Img : Grid Nat := ⟨2, 1, [0, 1]⟩

/-- An empty result container of matching shapes for the C3 witness. -/
def c3Fr : FacetResult :=
  { width := 2, height := 1, facetMap := ⟨2, 1, [7, 7]⟩, facets := [] }

theorem c3_build_all_facets_witness :
    (FacetBuilder.build_all_facets c3Img 2 1 c3Fr).1.facetMap.get 1 0
        < (FacetBuilder.build_all_facets c3Img 2 1 c3Fr).2.length ∧
    ((FacetBuilder.build_all_facets c3Img 2 1 c3Fr).2.getD
        ((FacetBuilder.build_all_facets c3Img 2 1 c3Fr).1.facetMap.get 1 0)
        default).id
      = (FacetBuilder.build_all_facets c3Img 2 1 c3Fr).1.facetMap.get 1 0 ∧
    ((FacetBuilder.build_all_facets c3Img 2 1 c3Fr).2.getD
        ((FacetBuilder.build_all_facets c3Img 2 1 c3Fr).1.facetMap.get 1 0)
        default).color
      = c3Img.get 1 0 :=
  c3_build_all_facets c3Img 2 1 c3Fr rfl rfl rfl rfl rfl 1 0 (by decide) (by decide)

end PBN
